import Mathlib

/-!
# Verification of the json-stream incremental JSON parser

A shallow embedding of the streaming JSON parser of `src/src/index.ts`
(its first, lookahead-buffer variant, lines 1-343: the class with the
private fields `#queue`, `#text`, `#index`, `#stream`, which is the
variant the claims point into and the one the spec marks canonical).

Characters are modelled as UTF-16 code units (`Nat`).  Every input the
claims exercise lies in the BMP, where the code-point splitting done by
`queue.pipe(r => [...r]).flat()` and the code-unit indexing done by
`#text.slice` coincide.  JavaScript numbers are modelled as `Option Rat`
(`none` playing NaN); every numeric value the claims exercise is exactly
representable as an IEEE double, where the JS string-to-number
conversion is exact, so exact rational arithmetic agrees with the code
on those inputs.

The parser runs on one cooperative thread whose only suspension points
are the cursor reads. A builder's observable state when the engine has
consumed all input pushed so far (quiescence) is therefore a function of
the consumed character sequence; the embedding computes that state:
each builder returns `done` (its completion future resolved), `fail`
(its body threw, so its completion rejected) or `pend` (it is suspended
inside a cursor read awaiting input), always together with the node's
current snapshot.
-/

namespace JsonStream

/-- Code units of a string literal (all literals used are in the BMP). -/
def cu (s : String) : List Nat := s.data.map Char.toNat

/-- `#isWhitespace`: space, newline, tab, carriage return. -/
def isWhitespace (c : Nat) : Bool := c == 32 || c == 10 || c == 9 || c == 13

/-- membership in the source's digit string `#numbers = '0123456789'`. -/
def isDigit (c : Nat) : Bool := 48 ≤ c && c ≤ 57

/-- membership in the source's identifier alphabet `#letters`
(ASCII letters, underscore, digits). -/
def isIdentChar (c : Nat) : Bool :=
  (97 ≤ c && c ≤ 122) || (65 ≤ c && c ≤ 90) || c == 95 || isDigit c

/-- The decimal value of a digit string. -/
def natOfDigits (l : List Nat) : Nat := l.foldl (fun a c => 10 * a + (c - 48)) 0

/-- `Number(str)` on the strings the number builder accumulates (an
optional leading minus, then digits and dots).  `none` models NaN:
more than one dot, a bare sign, or a lone dot.  `Number('') = 0`,
`Number('12.') = 12`, `Number('.5') = 0.5`. -/
def jsNumber (s : List Nat) : Option ℚ :=
  if s = [] then some 0
  else
    let neg : Bool := s.head? == some 45
    let body := if neg then s.tail else s
    let sgn : ℚ := if neg then -1 else 1
    match body.splitOn 46 with
    | [ip] =>
        if ip.isEmpty || !ip.all isDigit then none
        else some (sgn * (natOfDigits ip : ℚ))
    | [ip, fp] =>
        if (ip.isEmpty && fp.isEmpty) || !ip.all isDigit || !fp.all isDigit then none
        else some (sgn * ((natOfDigits ip : ℚ) + (natOfDigits fp : ℚ) / 10 ^ fp.length))
    | _ => none

/-- Hexadecimal digit (for `parseInt(s, 16)`). -/
def isHexDigit (c : Nat) : Bool :=
  (48 ≤ c && c ≤ 57) || (97 ≤ c && c ≤ 102) || (65 ≤ c && c ≤ 70)

/-- Value of a hexadecimal digit. -/
def hexDigitVal (c : Nat) : Nat :=
  if c ≤ 57 then c - 48 else if c ≤ 70 then c - 55 else c - 87

/-- ECMAScript StrWhiteSpace characters trimmed by `parseInt` (the ASCII
ones plus NBSP and the BOM; the claims never exercise them). -/
def isJsTrimWs (c : Nat) : Bool := c == 32 || (9 ≤ c && c ≤ 13) || c == 160 || c == 65279

/-- `parseInt(s, 16)`: trim, optional sign, optional `0x`/`0X` prefix,
then the longest run of hexadecimal digits; `none` models NaN (no
digit). -/
def jsParseIntHex (s : List Nat) : Option Int :=
  let t1 := s.dropWhile isJsTrimWs
  let sgn : Int := if t1.head? == some 45 then -1 else 1
  let t2 := if t1.head? == some 45 || t1.head? == some 43 then t1.tail else t1
  let t3 :=
    match t2 with
    | a :: b :: r => if a == 48 && (b == 120 || b == 88) then r else t2
    | _ => t2
  let ds := t3.takeWhile isHexDigit
  if ds.isEmpty then none
  else some (sgn * (ds.foldl (fun a c => 16 * a + hexDigitVal c) 0 : Nat))

/-- `String.fromCharCode(v)`: ToUint16 of the argument — the value modulo
2^16 — and NaN maps to 0.  A code point at or above 0x10000 is therefore
truncated, not encoded. -/
def fromCharCode (v : Option Int) : Nat :=
  match v with
  | none => 0
  | some i => (i % 65536).toNat

/-- The string builder's `escapeSequences` table (the single-character
escapes); `none` when the truthiness test `escapeSequences[nextChar]`
fails. -/
def escTable (c : Nat) : Option Nat :=
  if c = 34 then some 34          -- '"'  -> '"'
  else if c = 92 then some 92     -- backslash
  else if c = 47 then some 47     -- '/'  -> '/'
  else if c = 98 then some 8      -- 'b'  -> backspace
  else if c = 102 then some 12    -- 'f'  -> form feed
  else if c = 110 then some 10    -- 'n'  -> newline
  else if c = 114 then some 13    -- 'r'  -> carriage return
  else if c = 116 then some 9     -- 't'  -> tab
  else none

/-- The parse errors the engine can raise (§7 of the spec): each is an
`Error` thrown by an `assert`/`assertEq`/`throw` site of the source. -/
inductive Err where
  | unexpectedEof
  | unexpectedToken (c : Nat)
  | tokenMismatch (expected got : List Nat)
  | invalidEscape (c : Nat)
deriving DecidableEq

/-! ## The cursor, abstracted to the characters still ahead of the read index

The builders only reach the buffer through `#peek`/`#next` and their
non-EOF variants, which depend on the buffer `#text`, the read index
`#index` and the queue only through the sequence of characters not yet
consumed: `text.drop index ++ (what the queue still holds)`.  The
builders are therefore modelled over that remaining-input list; `ended`
tells whether the queue has signalled end-of-stream after it.  (The
buffer/index pair itself, which claim C3 is about, is modelled
separately below as `Cursor`.) -/

abbrev Input := List Nat

/-- Result of `#peek`/`#next`: a chunk, `undefined` (end of stream), or a
suspension that never finishes because the source never supplies the
characters. -/
inductive Pk where
  | ok (s : Input) (rest : Input)
  | undef (rest : Input)
  | pend
deriving DecidableEq

/-- `#peek(len)`: the next `len` characters, not consumed.  At end of
stream it returns `undefined` without consuming; with the source still
open but dry it suspends. -/
def peekA (ended : Bool) (len : Nat) (inp : Input) : Pk :=
  if len ≤ inp.length then .ok (inp.take len) inp
  else if ended then .undef inp
  else .pend

/-- `#next(len)`: `#peek(len)`, then `#index += len` — the index advances
even when the peek came back `undefined`, so at end of stream the
remaining input becomes empty (the index has moved past the frozen
buffer). -/
def nextA (ended : Bool) (len : Nat) (inp : Input) : Pk :=
  match peekA ended len inp with
  | .ok s _ => .ok s (inp.drop len)
  | .undef _ => .undef []
  | .pend => .pend

/-- Result of an operation that can throw: `#nextNonEof`, `#peekNonEof`,
`#skipWhiteSpaces`, `#expectNext`. -/
inductive Ck (α : Type) where
  | ok (a : α) (rest : Input)
  | fail (e : Err)
  | pend
deriving DecidableEq

/-- `#nextNonEof(len)`: `#next`, with `undefined` turned into the
`Unexpected end of JSON input` assertion failure. -/
def nextNonEofA (ended : Bool) (len : Nat) (inp : Input) : Ck Input :=
  match nextA ended len inp with
  | .ok s rest => .ok s rest
  | .undef _ => .fail .unexpectedEof
  | .pend => .pend

/-- `#peekNonEof(len)`. -/
def peekNonEofA (ended : Bool) (len : Nat) (inp : Input) : Ck Input :=
  match peekA ended len inp with
  | .ok s rest => .ok s rest
  | .undef _ => .fail .unexpectedEof
  | .pend => .pend

/-- `#peekNonEof()` with the default length 1, giving the single
character (the form every dispatch and loop guard uses). -/
def peek1A (ended : Bool) (inp : Input) : Ck Nat :=
  match inp with
  | c :: _ => .ok c inp
  | [] => if ended then .fail .unexpectedEof else .pend

/-- `#skipWhiteSpaces`: `while (isWhitespace(await peekNonEof())) await
nextNonEof();` — each iteration peeks one character and, if whitespace,
consumes it. -/
def skipWSA (ended : Bool) : Input → Ck Unit
  | [] => if ended then .fail .unexpectedEof else .pend
  | c :: rest => if isWhitespace c then skipWSA ended rest else .ok () (c :: rest)

/-- `#expectNext(expected)`: `nextNonEof(expected.length)` then
`assertEq` against the literal. -/
def expectA (ended : Bool) (expected : Input) (inp : Input) : Ck Input :=
  match nextNonEofA ended expected.length inp with
  | .ok chunk rest =>
      if chunk = expected then .ok chunk rest else .fail (.tokenMismatch expected chunk)
  | .fail e => .fail e
  | .pend => .pend

/-! ## Scalar builders

Each builder is the body `#wrapResult` runs, evaluated to quiescence: the
result carries the node's snapshot — final on `done` (the completion
future resolved to it), current on `fail` (the completion rejected) and
on `pend` (the completion still pending). -/

/-- Result of a builder's body together with the node's snapshot. -/
inductive PR (α : Type) where
  | done (v : α) (rest : Input)
  | fail (e : Err) (v : α)
  | pend (v : α)
deriving DecidableEq

/-- The string-loop's control positions: the top of the
`while (peekNonEof() !== '"')` loop; right after a consumed backslash
(about to read the escape character); right after `\u` (about to read
4 hexadecimal characters); right after `\U` (about to read 8). -/
inductive SMode where
  | top
  | esc
  | hex4
  | hex8

/-- The string builder's loop (the `while` of `parseString`).  At the
top: peek; a closing quote ends the loop unconsumed; a plain character
is consumed and extends the snapshot by one `update`; a backslash is
consumed and the escape character is read (`esc`).  The escape
character goes through the truthiness test `escapeSequences[nextChar]`,
else `u` reads `nextNonEof(4)` and `U` reads `nextNonEof(8)`, decoded
by `parseInt(-, 16)` and appended through `String.fromCharCode`; any
other escape character throws `Invalid escape sequence`. -/
def strGo (ended : Bool) : SMode → List Nat → Input → PR (List Nat)
  | .top, acc, [] => if ended then .fail .unexpectedEof acc else .pend acc
  | .top, acc, c :: rest =>
    if c = 34 then .done acc (c :: rest)
    else if c ≠ 92 then strGo ended .top (acc ++ [c]) rest
    else strGo ended .esc acc rest
  | .esc, acc, [] => if ended then .fail .unexpectedEof acc else .pend acc
  | .esc, acc, e :: rest2 =>
    match escTable e with
    | some m => strGo ended .top (acc ++ [m]) rest2
    | none =>
      if e = 117 then strGo ended .hex4 acc rest2
      else if e = 85 then strGo ended .hex8 acc rest2
      else .fail (.invalidEscape e) acc
  | .hex4, acc, h1 :: h2 :: h3 :: h4 :: rest3 =>
      strGo ended .top (acc ++ [fromCharCode (jsParseIntHex [h1, h2, h3, h4])]) rest3
  | .hex4, acc, _ => if ended then .fail .unexpectedEof acc else .pend acc
  | .hex8, acc, h1 :: h2 :: h3 :: h4 :: h5 :: h6 :: h7 :: h8 :: rest3 =>
      strGo ended .top
        (acc ++ [fromCharCode (jsParseIntHex [h1, h2, h3, h4, h5, h6, h7, h8])]) rest3
  | .hex8, acc, _ => if ended then .fail .unexpectedEof acc else .pend acc

/-- `parseString`: snapshot starts `''`; expect the opening quote, one
bare `peekNonEof()` (line 268 of the source, result discarded), the
loop, then expect the closing quote. -/
def parseStringA (ended : Bool) (inp : Input) : PR (List Nat) :=
  match expectA ended [34] inp with
  | .fail e => .fail e []
  | .pend => .pend []
  | .ok _ r1 =>
    match peekNonEofA ended 1 r1 with
    | .fail e => .fail e []
    | .pend => .pend []
    | .ok _ _ =>
      match strGo ended .top [] r1 with
      | .done acc r2 =>
        match expectA ended [34] r2 with
        | .ok _ r3 => .done acc r3
        | .fail e => .fail e acc
        | .pend => .pend acc
      | .fail e acc => .fail e acc
      | .pend acc => .pend acc

/-- The number builder's digit loop: as long as the peeked character is a
digit or a dot, consume it, append it to the textual buffer `str`, and
replace the snapshot with `Number(str)`. -/
def numLoop (ended : Bool) (str : List Nat) (cur : Option ℚ) : Input → PR (Option ℚ)
  | [] => if ended then .fail .unexpectedEof cur else .pend cur
  | c :: rest =>
    if isDigit c || c = 46 then
      numLoop ended (str ++ [c]) (jsNumber (str ++ [c])) rest
    else .done cur (c :: rest)

/-- `parseNumber`: snapshot starts `0`; a leading `-` is consumed into
the buffer before the digit loop. -/
def parseNumberA (ended : Bool) (inp : Input) : PR (Option ℚ) :=
  match peek1A ended inp with
  | .fail e => .fail e (some 0)
  | .pend => .pend (some 0)
  | .ok c _ =>
    if c = 45 then
      match nextNonEofA ended 1 inp with
      | .ok _ r => numLoop ended [45] (some 0) r
      | .fail e => .fail e (some 0)
      | .pend => .pend (some 0)
    else numLoop ended [] (some 0) inp

/-- The identifier builder's loop over the alphabet `#letters`. -/
def identLoop (ended : Bool) (acc : List Nat) : Input → PR (List Nat)
  | [] => if ended then .fail .unexpectedEof acc else .pend acc
  | c :: rest =>
    if isIdentChar c then identLoop ended (acc ++ [c]) rest
    else .done acc (c :: rest)

/-- `parseIdentifier`: snapshot starts `''`. -/
def parseIdentifierA (ended : Bool) (inp : Input) : PR (List Nat) :=
  identLoop ended [] inp

/-- `parseKey`: its own node, snapshot `''`; peeks one character, runs
`parseString` on a quote and `parseIdentifier` otherwise, awaits that
inner node, then replaces the snapshot by the inner result.  While the
inner node is pending or failed the key node's own snapshot is still
`''`. -/
def parseKeyA (ended : Bool) (inp : Input) : PR (List Nat) :=
  match peek1A ended inp with
  | .fail e => .fail e []
  | .pend => .pend []
  | .ok c _ =>
    match (if c = 34 then parseStringA ended inp else parseIdentifierA ended inp) with
    | .done k rest => .done k rest
    | .fail e _ => .fail e []
    | .pend _ => .pend []

/-- `parseBoolean(expected)`: the snapshot is the expected boolean from
the start; the body only expects the literal text. -/
def parseBooleanA (ended : Bool) (b : Bool) (inp : Input) : PR Bool :=
  match expectA ended (if b then cu "true" else cu "false") inp with
  | .ok _ rest => .done b rest
  | .fail e => .fail e b
  | .pend => .pend b

/-- `parseNull`: snapshot `null`; the body expects the literal. -/
def parseNullA (ended : Bool) (inp : Input) : PR Unit :=
  match expectA ended (cu "null") inp with
  | .ok _ rest => .done () rest
  | .fail e => .fail e ()
  | .pend => .pend ()

/-! ## The partial-node tree

A node's observable state is its snapshot plus whether its completion
future has settled (resolved or rejected).  A composite snapshot holds
its children as nodes, in the enumeration order of the underlying
JavaScript object/array. -/

mutual
/-- A snapshot: `JSONStreamValue` with the children's settledness kept. -/
inductive PSnap where
  | jnull
  | jnum (q : Option ℚ)
  | jbool (b : Bool)
  | jstr (s : List Nat)
  | jarr (l : PList)
  | jobj (l : KList)
/-- Array children, in order; each with its settled flag. -/
inductive PList where
  | nil
  | cons (hd : PSnap) (settled : Bool) (tl : PList)
/-- Object fields, in the object's enumeration order; each child with
its settled flag. -/
inductive KList where
  | nil
  | cons (k : List Nat) (hd : PSnap) (settled : Bool) (tl : KList)
end

/-- `data.push(val)` on an array snapshot. -/
def PList.push : PList → PSnap → Bool → PList
  | .nil, v, s => .cons v s .nil
  | .cons h hs t, v, s => .cons h hs (t.push v s)

/-- Whether a key is an ECMAScript array index: a canonical decimal
numeral whose value is below 2^32 - 1. -/
def isIdx (k : List Nat) : Bool :=
  !k.isEmpty && k.all isDigit && (k == [48] || k.head? != some 48)
    && natOfDigits k < 4294967295

/-- `data[key] = val` on an object snapshot, with ECMA-262 ordinary own
property order: an existing key is overwritten in place; a new
array-index key enters the ascending index prefix; any other new key is
appended. -/
def jsInsertK : KList → List Nat → PSnap → Bool → KList
  | .nil, k, v, s => .cons k v s .nil
  | .cons k' v' s' t, k, v, s =>
    if k = k' then .cons k' v s t
    else if isIdx k && (!isIdx k' || natOfDigits k < natOfDigits k') then
      .cons k v s (.cons k' v' s' t)
    else .cons k' v' s' (jsInsertK t k v s)

/-- The keys of an object snapshot, in enumeration order. -/
def objKeys : KList → List (List Nat)
  | .nil => []
  | .cons k _ _ t => k :: objKeys t

mutual
/-- Every node of the tree (the root included) has a settled completion. -/
def allSettled : PSnap → Bool
  | .jnull => true
  | .jnum _ => true
  | .jbool _ => true
  | .jstr _ => true
  | .jarr l => allSettledA l
  | .jobj l => allSettledO l
def allSettledA : PList → Bool
  | .nil => true
  | .cons v s t => s && allSettled v && allSettledA t
def allSettledO : KList → Bool
  | .nil => true
  | .cons _ v s t => s && allSettled v && allSettledO t
end

/-- The plain, fully materialized value the resolver produces. -/
inductive JPlain where
  | pnull
  | pnum (q : Option ℚ)
  | pbool (b : Bool)
  | pstr (s : List Nat)
  | parr (l : List JPlain)
  | pobj (l : List (List Nat × JPlain))

mutual
/-- `#resolve` (lines 321-340): a synchronous walk over the snapshots.
`typeof data === 'object'` and an array maps `#resolve` over the
elements; `null` returns as-is; any other object copies every key, by
`for (const key in ...)` enumeration order, through a recursive
`#resolve`; every other `typeof` returns the scalar as-is.  No `wait`
future is consulted: it reads the data fields whatever the settled
flags say. -/
def matNow : PSnap → JPlain
  | .jnull => .pnull
  | .jnum q => .pnum q
  | .jbool b => .pbool b
  | .jstr s => .pstr s
  | .jarr l => .parr (matNowA l)
  | .jobj l => .pobj (matNowO l)
def matNowA : PList → List JPlain
  | .nil => []
  | .cons v _ t => matNow v :: matNowA t
def matNowO : KList → List (List Nat × JPlain)
  | .nil => []
  | .cons k v _ t => (k, matNow v) :: matNowO t
end

mutual
/-- The resolver as §4.6 of the spec words it: `resolve(node)` first
awaits the node's completion future — which never resolves while the
node is pending — and then recurses: sequences element by element in
order, mappings value by value preserving key order, scalars as-is.
`none` stands for an await that never completes. -/
def resolveSpec (s : PSnap) (settled : Bool) : Option JPlain :=
  if !settled then none
  else
    match s with
    | .jnull => some .pnull
    | .jnum q => some (.pnum q)
    | .jbool b => some (.pbool b)
    | .jstr t => some (.pstr t)
    | .jarr l => (resolveSpecA l).map .parr
    | .jobj l => (resolveSpecO l).map .pobj
def resolveSpecA : PList → Option (List JPlain)
  | .nil => some []
  | .cons v s t =>
    match resolveSpec v s, resolveSpecA t with
    | some x, some xs => some (x :: xs)
    | _, _ => none
def resolveSpecO : KList → Option (List (List Nat × JPlain))
  | .nil => some []
  | .cons k v s t =>
    match resolveSpec v s, resolveSpecO t with
    | some x, some xs => some ((k, x) :: xs)
    | _, _ => none
end

/-! ## The value dispatcher and the composite builders

`parseValue` and the object/array builders are mutually recursive; they
are written as one function over a call tag, structurally recursive on a
fuel argument (each step of the mutual recursion burns one unit; the
engine below supplies more fuel than any input can burn, so `spent`
never arises there). -/

/-- What `await this.parseValue()` followed by `await val.wait` can
leave behind: the `parseValue` promise itself rejected (the initial
skip, the peek or the dispatch threw — no node was ever produced), is
still pending (no node yet), or delivered a node, whose completion at
quiescence is resolved (with the input left over), rejected, or
pending. -/
inductive VR where
  | preFail (e : Err)
  | prePend
  | nodeDone (snap : PSnap) (rest : Input)
  | nodeFail (e : Err) (snap : PSnap)
  | nodePending (snap : PSnap)
  | spent

/-- Injection of a scalar builder's result into `VR`. -/
def liftNode {α : Type} (emb : α → PSnap) : PR α → VR
  | .done v rest => .nodeDone (emb v) rest
  | .fail e v => .nodeFail e (emb v)
  | .pend v => .nodePending (emb v)

/-- The members of the mutually recursive grammar: `parseValue` (with
its skip flag), its dispatch step, `parseObject` and its loop (the loop
carrying the fields attached so far), `parseArray` and its loop. -/
inductive PCall where
  | val (skip : Bool)
  | disp
  | obj
  | objLoop (acc : KList)
  | arr
  | arrLoop (acc : PList)

/-- The recursive-descent grammar (lines 129-214 of the source).

`.val skip`: `parseValue(skip)` — optionally `#skipWhiteSpaces`, then
dispatch.  `.disp`: peek one character and route on it; an unknown
character throws `Unexpected token`.

`.obj`/`.objLoop acc`: `parseObject` — snapshot starts as the empty
mapping; expect `{`; the do-loop skips whitespace, breaks on `}`, parses
a key and awaits it, skips whitespace, expects `:`, dispatches
`parseValue`, attaches the child node into the mapping by the deep
update `data[key.data] = val` **before** awaiting `val.wait`, skips
whitespace, breaks on `}` or expects `,`; after the loop it expects
`}`.  A child that is still pending is therefore already attached, and
the object settles only after each child has.

`.arr`/`.arrLoop acc`: `parseArray`, symmetric, attaching by
`data.push(val)` and checking `]`. -/
def parseF : Nat → Bool → PCall → Input → VR
  | 0, _, _, _ => .spent
  | f + 1, ended, .val skip, inp =>
    if skip then
      match skipWSA ended inp with
      | .fail e => .preFail e
      | .pend => .prePend
      | .ok _ inp2 => parseF f ended .disp inp2
    else parseF f ended .disp inp
  | f + 1, ended, .disp, inp =>
    match peek1A ended inp with
    | .fail e => .preFail e
    | .pend => .prePend
    | .ok c _ =>
      if c = 123 then parseF f ended .obj inp
      else if c = 91 then parseF f ended .arr inp
      else if c = 34 then liftNode .jstr (parseStringA ended inp)
      else if c = 116 then liftNode .jbool (parseBooleanA ended true inp)
      else if c = 102 then liftNode .jbool (parseBooleanA ended false inp)
      else if c = 110 then liftNode (fun _ => .jnull) (parseNullA ended inp)
      else if c = 45 || isDigit c then liftNode .jnum (parseNumberA ended inp)
      else .preFail (.unexpectedToken c)
  | f + 1, ended, .obj, inp =>
    match expectA ended [123] inp with
    | .fail e => .nodeFail e (.jobj .nil)
    | .pend => .nodePending (.jobj .nil)
    | .ok _ r1 => parseF f ended (.objLoop .nil) r1
  | f + 1, ended, .objLoop acc, inp =>
    match skipWSA ended inp with
    | .fail e => .nodeFail e (.jobj acc)
    | .pend => .nodePending (.jobj acc)
    | .ok _ r1 =>
    match peek1A ended r1 with
    | .fail e => .nodeFail e (.jobj acc)
    | .pend => .nodePending (.jobj acc)
    | .ok c _ =>
    if c = 125 then
      match expectA ended [125] r1 with
      | .ok _ r2 => .nodeDone (.jobj acc) r2
      | .fail e => .nodeFail e (.jobj acc)
      | .pend => .nodePending (.jobj acc)
    else
    match parseKeyA ended r1 with
    | .fail e _ => .nodeFail e (.jobj acc)
    | .pend _ => .nodePending (.jobj acc)
    | .done k r2 =>
    match skipWSA ended r2 with
    | .fail e => .nodeFail e (.jobj acc)
    | .pend => .nodePending (.jobj acc)
    | .ok _ r3 =>
    match expectA ended [58] r3 with
    | .fail e => .nodeFail e (.jobj acc)
    | .pend => .nodePending (.jobj acc)
    | .ok _ r4 =>
    match parseF f ended (.val true) r4 with
    | .spent => .spent
    | .preFail e => .nodeFail e (.jobj acc)
    | .prePend => .nodePending (.jobj acc)
    | .nodeFail e v => .nodeFail e (.jobj (jsInsertK acc k v true))
    | .nodePending v => .nodePending (.jobj (jsInsertK acc k v false))
    | .nodeDone v r5 =>
      let acc2 := jsInsertK acc k v true
      match skipWSA ended r5 with
      | .fail e => .nodeFail e (.jobj acc2)
      | .pend => .nodePending (.jobj acc2)
      | .ok _ r6 =>
      match peek1A ended r6 with
      | .fail e => .nodeFail e (.jobj acc2)
      | .pend => .nodePending (.jobj acc2)
      | .ok c2 _ =>
      if c2 = 125 then
        match expectA ended [125] r6 with
        | .ok _ r7 => .nodeDone (.jobj acc2) r7
        | .fail e => .nodeFail e (.jobj acc2)
        | .pend => .nodePending (.jobj acc2)
      else
        match expectA ended [44] r6 with
        | .fail e => .nodeFail e (.jobj acc2)
        | .pend => .nodePending (.jobj acc2)
        | .ok _ r7 => parseF f ended (.objLoop acc2) r7
  | f + 1, ended, .arr, inp =>
    match expectA ended [91] inp with
    | .fail e => .nodeFail e (.jarr .nil)
    | .pend => .nodePending (.jarr .nil)
    | .ok _ r1 => parseF f ended (.arrLoop .nil) r1
  | f + 1, ended, .arrLoop acc, inp =>
    match skipWSA ended inp with
    | .fail e => .nodeFail e (.jarr acc)
    | .pend => .nodePending (.jarr acc)
    | .ok _ r1 =>
    match peek1A ended r1 with
    | .fail e => .nodeFail e (.jarr acc)
    | .pend => .nodePending (.jarr acc)
    | .ok c _ =>
    if c = 93 then
      match expectA ended [93] r1 with
      | .ok _ r2 => .nodeDone (.jarr acc) r2
      | .fail e => .nodeFail e (.jarr acc)
      | .pend => .nodePending (.jarr acc)
    else
    match parseF f ended (.val false) r1 with
    | .spent => .spent
    | .preFail e => .nodeFail e (.jarr acc)
    | .prePend => .nodePending (.jarr acc)
    | .nodeFail e v => .nodeFail e (.jarr (acc.push v true))
    | .nodePending v => .nodePending (.jarr (acc.push v false))
    | .nodeDone v r2 =>
      let acc2 := acc.push v true
      match skipWSA ended r2 with
      | .fail e => .nodeFail e (.jarr acc2)
      | .pend => .nodePending (.jarr acc2)
      | .ok _ r3 =>
      match peek1A ended r3 with
      | .fail e => .nodeFail e (.jarr acc2)
      | .pend => .nodePending (.jarr acc2)
      | .ok c2 _ =>
      if c2 = 93 then
        match expectA ended [93] r3 with
        | .ok _ r4 => .nodeDone (.jarr acc2) r4
        | .fail e => .nodeFail e (.jarr acc2)
        | .pend => .nodePending (.jarr acc2)
      else
        match expectA ended [44] r3 with
        | .fail e => .nodeFail e (.jarr acc2)
        | .pend => .nodePending (.jarr acc2)
        | .ok _ r4 => parseF f ended (.arrLoop acc2) r4

/-! ## The engine -/

/-- More fuel than any input can burn: each unit of fuel either consumes
input or enters a production that will, and every entry is preceded by
at most four fuel-free steps. -/
def canonFuel (inp : Input) : Nat := 4 * inp.length + 8

/-- `this.#stream = this.parseValue()` (the constructor), run to
quiescence over the characters pushed so far; `ended` tells whether the
queue's end signal has been given. -/
def engineRoot (inp : Input) (ended : Bool) : VR :=
  parseF (canonFuel inp) ended (.val true) inp

/-- What `await parser.resolve()` can produce. -/
inductive RRes where
  | val (v : JPlain)
  | err (e : Err)
  | pend
  | spent

/-- `resolve()` (lines 317-319): `this.#resolve(await this.#stream)` —
it awaits only `#stream`, the promise **of the root node object**, which
settles as soon as the dispatcher has picked a builder; it never awaits
the node's completion future `wait`.  `#resolve` then materializes the
current snapshots synchronously, whatever state the parse is in. -/
def resolveEngine (inp : Input) (ended : Bool) : RRes :=
  match engineRoot inp ended with
  | .preFail e => .err e
  | .prePend => .pend
  | .nodeDone s _ => .val (matNow s)
  | .nodeFail _ s => .val (matNow s)
  | .nodePending s => .val (matNow s)
  | .spent => .spent

/-- The constructor pipes the queue through `r => [...r]` and `flat()`:
whatever chunks the producer pushes are split into single characters
before the cursor sees them. -/
def resolveEngineChunks (chunks : List (List Nat)) (ended : Bool) : RRes :=
  resolveEngine chunks.flatten ended

/-! ## The cursor's buffer and read index (claim C3)

The concrete cursor state of the source: the buffer `#text` of
characters pulled off the queue so far, the read index `#index`, the
characters the queue still holds, and whether the end signal has been
given after them. -/

structure Cursor where
  text : List Nat
  index : Nat
  src : List Nat
  ended : Bool
deriving DecidableEq

/-- Result of a cursor-level `#peek`/`#next`, with the cursor it leaves
behind (on a suspension, the state while suspended). -/
inductive PkC where
  | ok (s : List Nat) (c : Cursor)
  | undef (c : Cursor)
  | pend (c : Cursor)
deriving DecidableEq

/-- The while-loop of `#peek` (lines 61-69): pull characters from the
queue into the buffer one at a time until the buffer holds `index + len`
of them; on the EOF sentinel return `undefined`; with the queue dry but
not ended, suspend. -/
def fillC (index len : Nat) (ended : Bool) : List Nat → List Nat → PkC
  | text, ch :: rest =>
    if text.length < index + len then fillC index len ended (text ++ [ch]) rest
    else .ok ((text.drop index).take len) ⟨text, index, ch :: rest, ended⟩
  | text, [] =>
    if text.length < index + len then
      if ended then .undef ⟨text, index, [], ended⟩ else .pend ⟨text, index, [], ended⟩
    else .ok ((text.drop index).take len) ⟨text, index, [], ended⟩

/-- `#peek(len)` on a cursor. -/
def peekC (len : Nat) (c : Cursor) : PkC :=
  fillC c.index len c.ended c.text c.src

/-- `#next(len)` (lines 49-53): `#peek(len)`, then `this.#index += len` —
also when the peek returned `undefined`. -/
def nextC (len : Nat) (c : Cursor) : PkC :=
  match peekC len c with
  | .ok s c2 => .ok s { c2 with index := c2.index + len }
  | .undef c2 => .undef { c2 with index := c2.index + len }
  | .pend c2 => .pend c2

/-- Result of a throwing cursor operation, with the cursor it leaves
behind. -/
inductive CkC (α : Type) where
  | ok (a : α) (c : Cursor)
  | fail (e : Err) (c : Cursor)
  | pend (c : Cursor)
deriving DecidableEq

/-- `#nextNonEof(len)`. -/
def nextNonEofC (len : Nat) (c : Cursor) : CkC (List Nat) :=
  match nextC len c with
  | .ok s c2 => .ok s c2
  | .undef c2 => .fail .unexpectedEof c2
  | .pend c2 => .pend c2

/-- `#peekNonEof(len)`. -/
def peekNonEofC (len : Nat) (c : Cursor) : CkC (List Nat) :=
  match peekC len c with
  | .ok s c2 => .ok s c2
  | .undef c2 => .fail .unexpectedEof c2
  | .pend c2 => .pend c2

/-- `#expectNext(expected)` at cursor level. -/
def expectC (expected : List Nat) (c : Cursor) : CkC (List Nat) :=
  match nextNonEofC expected.length c with
  | .ok chunk c2 =>
      if chunk = expected then .ok chunk c2 else .fail (.tokenMismatch expected chunk) c2
  | .fail e c2 => .fail e c2
  | .pend c2 => .pend c2

/-- Result of the whitespace skip (`spent` only when the fuel runs out;
the skip consumes a character per iteration, so any fuel beyond the
available characters is enough). -/
inductive SkC where
  | ok (c : Cursor)
  | fail (e : Err) (c : Cursor)
  | pend (c : Cursor)
  | spent
deriving DecidableEq

/-- `#skipWhiteSpaces` at cursor level (lines 77-83), fuelled. -/
def skipWSC : Nat → Cursor → SkC
  | 0, _ => .spent
  | fuel + 1, c =>
    match peekNonEofC 1 c with
    | .fail e c2 => .fail e c2
    | .pend c2 => .pend c2
    | .ok s c2 =>
      if s.any isWhitespace then
        match nextNonEofC 1 c2 with
        | .ok _ c3 => skipWSC fuel c3
        | .fail e c3 => .fail e c3
        | .pend c3 => .pend c3
      else .ok c2

/-- The spec's cursor invariant: the read index never passes the end of
the buffer. -/
def invC (c : Cursor) : Prop := c.index ≤ c.text.length

/-- The cursor a `#peek`/`#next` result leaves behind. -/
def PkC.cur : PkC → Cursor
  | .ok _ c => c
  | .undef c => c
  | .pend c => c

/-- The cursor a throwing operation's result leaves behind. -/
def CkC.cur {α : Type} : CkC α → Cursor
  | .ok _ c => c
  | .fail _ c => c
  | .pend c => c

/-- The invariant on a whitespace-skip result (nothing demanded of a
fuel exhaustion, which the source has no counterpart of). -/
def invS : SkC → Prop
  | .ok c => invC c
  | .fail _ c => invC c
  | .pend c => invC c
  | .spent => True

/-! ## The update/settle event trace (claim C8)

To speak about mutation over time, the builders are repeated below with
two additions, exactly as `#wrapResult` runs them: every node gets an
identifier (a counter incremented at each `#wrapResult` call, in
creation order), and the run emits an event for every snapshot mutation
(`upd`, one per `update` call, replace or deep) and for every completion
settling (`settle`, emitted when the body's promise resolves or
rejects).  The result component of each instrumented builder is the same
as the plain builder's (the agreement theorems `parseStringT_fst` …
`parseFT_fst` below), and a child's events are linearized as a block
before the parent's attach update; the claim proved is insensitive to
how the microtask scheduler interleaves a child's body with its parent
between suspension points, because the updates and the settle of one
node all happen in that node's own builder, in program order.  The
character loops consume one character per `update`, so their event block
is a run of identical `upd` events; they are instrumented by counting
(`List.replicate` rebuilds the block). -/

/-- A trace event: node `id`'s snapshot was mutated (`upd`), or node
`id`'s completion future settled, resolved or rejected (`settle`). -/
inductive Ev where
  | upd (id : Nat)
  | settle (id : Nat)
deriving DecidableEq

/-- The node id an event mentions. -/
def evId : Ev → Nat
  | .upd i => i
  | .settle i => i

/-- No update to a node after that node's completion settled: the C8
invariant, read off a trace. -/
def noUAS : List Ev → Prop
  | [] => True
  | .upd _ :: t => noUAS t
  | .settle i :: t => Ev.upd i ∉ t ∧ noUAS t

/-- The string loop, counting its `update` calls (one per consumed
character or decoded escape). -/
def strGoT (ended : Bool) : SMode → List Nat → Input → PR (List Nat) × Nat
  | .top, acc, [] => (if ended then .fail .unexpectedEof acc else .pend acc, 0)
  | .top, acc, c :: rest =>
    if c = 34 then (.done acc (c :: rest), 0)
    else if c ≠ 92 then
      let r := strGoT ended .top (acc ++ [c]) rest
      (r.1, r.2 + 1)
    else strGoT ended .esc acc rest
  | .esc, acc, [] => (if ended then .fail .unexpectedEof acc else .pend acc, 0)
  | .esc, acc, e :: rest2 =>
    match escTable e with
    | some m =>
      let r := strGoT ended .top (acc ++ [m]) rest2
      (r.1, r.2 + 1)
    | none =>
      if e = 117 then strGoT ended .hex4 acc rest2
      else if e = 85 then strGoT ended .hex8 acc rest2
      else (.fail (.invalidEscape e) acc, 0)
  | .hex4, acc, h1 :: h2 :: h3 :: h4 :: rest3 =>
    let r := strGoT ended .top (acc ++ [fromCharCode (jsParseIntHex [h1, h2, h3, h4])]) rest3
    (r.1, r.2 + 1)
  | .hex4, acc, _ => (if ended then .fail .unexpectedEof acc else .pend acc, 0)
  | .hex8, acc, h1 :: h2 :: h3 :: h4 :: h5 :: h6 :: h7 :: h8 :: rest3 =>
    let r := strGoT ended .top
      (acc ++ [fromCharCode (jsParseIntHex [h1, h2, h3, h4, h5, h6, h7, h8])]) rest3
    (r.1, r.2 + 1)
  | .hex8, acc, _ => (if ended then .fail .unexpectedEof acc else .pend acc, 0)

/-- `parseString`, instrumented: its node id is `ctr`, the next fresh id
`ctr + 1`; the body settles the node exactly when it returns or throws. -/
def parseStringT (ended : Bool) (ctr : Nat) (inp : Input) : PR (List Nat) × Nat × List Ev :=
  match expectA ended [34] inp with
  | .fail e => (.fail e [], ctr + 1, [.settle ctr])
  | .pend => (.pend [], ctr + 1, [])
  | .ok _ r1 =>
    match peekNonEofA ended 1 r1 with
    | .fail e => (.fail e [], ctr + 1, [.settle ctr])
    | .pend => (.pend [], ctr + 1, [])
    | .ok _ _ =>
      match strGoT ended .top [] r1 with
      | (.done acc r2, k) =>
        match expectA ended [34] r2 with
        | .ok _ r3 => (.done acc r3, ctr + 1, .replicate k (.upd ctr) ++ [.settle ctr])
        | .fail e => (.fail e acc, ctr + 1, .replicate k (.upd ctr) ++ [.settle ctr])
        | .pend => (.pend acc, ctr + 1, .replicate k (.upd ctr))
      | (.fail e acc, k) => (.fail e acc, ctr + 1, .replicate k (.upd ctr) ++ [.settle ctr])
      | (.pend acc, k) => (.pend acc, ctr + 1, .replicate k (.upd ctr))

/-- The number loop, counting its `update` calls. -/
def numLoopT (ended : Bool) (str : List Nat) (cur : Option ℚ) :
    Input → PR (Option ℚ) × Nat
  | [] => (if ended then .fail .unexpectedEof cur else .pend cur, 0)
  | c :: rest =>
    if isDigit c || c = 46 then
      let r := numLoopT ended (str ++ [c]) (jsNumber (str ++ [c])) rest
      (r.1, r.2 + 1)
    else (.done cur (c :: rest), 0)

/-- `parseNumber`, instrumented. -/
def parseNumberT (ended : Bool) (ctr : Nat) (inp : Input) : PR (Option ℚ) × Nat × List Ev :=
  match peek1A ended inp with
  | .fail e => (.fail e (some 0), ctr + 1, [.settle ctr])
  | .pend => (.pend (some 0), ctr + 1, [])
  | .ok c _ =>
    if c = 45 then
      match nextNonEofA ended 1 inp with
      | .ok _ r =>
        match numLoopT ended [45] (some 0) r with
        | (.done v rest, k) => (.done v rest, ctr + 1, .replicate k (.upd ctr) ++ [.settle ctr])
        | (.fail e v, k) => (.fail e v, ctr + 1, .replicate k (.upd ctr) ++ [.settle ctr])
        | (.pend v, k) => (.pend v, ctr + 1, .replicate k (.upd ctr))
      | .fail e => (.fail e (some 0), ctr + 1, [.settle ctr])
      | .pend => (.pend (some 0), ctr + 1, [])
    else
      match numLoopT ended [] (some 0) inp with
      | (.done v rest, k) => (.done v rest, ctr + 1, .replicate k (.upd ctr) ++ [.settle ctr])
      | (.fail e v, k) => (.fail e v, ctr + 1, .replicate k (.upd ctr) ++ [.settle ctr])
      | (.pend v, k) => (.pend v, ctr + 1, .replicate k (.upd ctr))

/-- The identifier loop, counting its `update` calls. -/
def identLoopT (ended : Bool) (acc : List Nat) : Input → PR (List Nat) × Nat
  | [] => (if ended then .fail .unexpectedEof acc else .pend acc, 0)
  | c :: rest =>
    if isIdentChar c then
      let r := identLoopT ended (acc ++ [c]) rest
      (r.1, r.2 + 1)
    else (.done acc (c :: rest), 0)

/-- `parseIdentifier`, instrumented. -/
def parseIdentifierT (ended : Bool) (ctr : Nat) (inp : Input) : PR (List Nat) × Nat × List Ev :=
  match identLoopT ended [] inp with
  | (.done v rest, k) => (.done v rest, ctr + 1, .replicate k (.upd ctr) ++ [.settle ctr])
  | (.fail e v, k) => (.fail e v, ctr + 1, .replicate k (.upd ctr) ++ [.settle ctr])
  | (.pend v, k) => (.pend v, ctr + 1, .replicate k (.upd ctr))

/-- `parseKey`, instrumented: the key node is `ctr`, the inner
string/identifier node is allocated from `ctr + 1`, and `update(key.data)`
is the key node's single update, after the inner value arrives. -/
def parseKeyT (ended : Bool) (ctr : Nat) (inp : Input) : PR (List Nat) × Nat × List Ev :=
  match peek1A ended inp with
  | .fail e => (.fail e [], ctr + 1, [.settle ctr])
  | .pend => (.pend [], ctr + 1, [])
  | .ok c _ =>
    match (if c = 34 then parseStringT ended (ctr + 1) inp
           else parseIdentifierT ended (ctr + 1) inp) with
    | (.done k rest, ctr2, evs) => (.done k rest, ctr2, evs ++ [.upd ctr, .settle ctr])
    | (.fail e _, ctr2, evs) => (.fail e [], ctr2, evs ++ [.settle ctr])
    | (.pend _, ctr2, evs) => (.pend [], ctr2, evs)

/-- `parseBoolean`, instrumented (no update: the snapshot holds the
expected boolean from creation on). -/
def parseBooleanT (ended : Bool) (b : Bool) (ctr : Nat) (inp : Input) :
    PR Bool × Nat × List Ev :=
  match expectA ended (if b then cu "true" else cu "false") inp with
  | .ok _ rest => (.done b rest, ctr + 1, [.settle ctr])
  | .fail e => (.fail e b, ctr + 1, [.settle ctr])
  | .pend => (.pend b, ctr + 1, [])

/-- `parseNull`, instrumented. -/
def parseNullT (ended : Bool) (ctr : Nat) (inp : Input) : PR Unit × Nat × List Ev :=
  match expectA ended (cu "null") inp with
  | .ok _ rest => (.done () rest, ctr + 1, [.settle ctr])
  | .fail e => (.fail e (), ctr + 1, [.settle ctr])
  | .pend => (.pend (), ctr + 1, [])

/-- The grammar's call tags, instrumented: a loop carries its own node's
id besides the fields attached so far. -/
inductive PCallT where
  | val (skip : Bool)
  | disp
  | obj
  | objLoop (nid : Nat) (acc : KList)
  | arr
  | arrLoop (nid : Nat) (acc : PList)

/-- The plain call tag an instrumented one stands for. -/
def PCallT.forget : PCallT → PCall
  | .val skip => .val skip
  | .disp => .disp
  | .obj => .obj
  | .objLoop _ acc => .objLoop acc
  | .arr => .arr
  | .arrLoop _ acc => .arrLoop acc

/-- The instrumented lift of a scalar dispatch. -/
def liftNodeT {α : Type} (emb : α → PSnap) (r : PR α × Nat × List Ev) : VR × Nat × List Ev :=
  (liftNode emb r.1, r.2.1, r.2.2)

/-- The recursive-descent grammar, instrumented: identical to `parseF`
except for the id counter and the trace.  The object and array loops
emit one `upd` of their own node per deep-update attach, and `settle` it
when their body returns (after the closing brace or bracket) or throws;
a child node's whole event block is inlined at its dispatch, before the
attach that follows the await on the child's availability. -/
def parseFT : Nat → Bool → PCallT → Input → Nat → VR × Nat × List Ev
  | 0, _, _, _, ctr => (.spent, ctr, [])
  | f + 1, ended, .val skip, inp, ctr =>
    if skip then
      match skipWSA ended inp with
      | .fail e => (.preFail e, ctr, [])
      | .pend => (.prePend, ctr, [])
      | .ok _ inp2 => parseFT f ended .disp inp2 ctr
    else parseFT f ended .disp inp ctr
  | f + 1, ended, .disp, inp, ctr =>
    match peek1A ended inp with
    | .fail e => (.preFail e, ctr, [])
    | .pend => (.prePend, ctr, [])
    | .ok c _ =>
      if c = 123 then parseFT f ended .obj inp ctr
      else if c = 91 then parseFT f ended .arr inp ctr
      else if c = 34 then liftNodeT .jstr (parseStringT ended ctr inp)
      else if c = 116 then liftNodeT .jbool (parseBooleanT ended true ctr inp)
      else if c = 102 then liftNodeT .jbool (parseBooleanT ended false ctr inp)
      else if c = 110 then liftNodeT (fun _ => .jnull) (parseNullT ended ctr inp)
      else if c = 45 || isDigit c then liftNodeT .jnum (parseNumberT ended ctr inp)
      else (.preFail (.unexpectedToken c), ctr, [])
  | f + 1, ended, .obj, inp, ctr =>
    match expectA ended [123] inp with
    | .fail e => (.nodeFail e (.jobj .nil), ctr + 1, [.settle ctr])
    | .pend => (.nodePending (.jobj .nil), ctr + 1, [])
    | .ok _ r1 => parseFT f ended (.objLoop ctr .nil) r1 (ctr + 1)
  | f + 1, ended, .objLoop nid acc, inp, ctr =>
    match skipWSA ended inp with
    | .fail e => (.nodeFail e (.jobj acc), ctr, [.settle nid])
    | .pend => (.nodePending (.jobj acc), ctr, [])
    | .ok _ r1 =>
    match peek1A ended r1 with
    | .fail e => (.nodeFail e (.jobj acc), ctr, [.settle nid])
    | .pend => (.nodePending (.jobj acc), ctr, [])
    | .ok c _ =>
    if c = 125 then
      match expectA ended [125] r1 with
      | .ok _ r2 => (.nodeDone (.jobj acc) r2, ctr, [.settle nid])
      | .fail e => (.nodeFail e (.jobj acc), ctr, [.settle nid])
      | .pend => (.nodePending (.jobj acc), ctr, [])
    else
    match parseKeyT ended ctr r1 with
    | (.fail e _, ctr2, ktr) => (.nodeFail e (.jobj acc), ctr2, ktr ++ [.settle nid])
    | (.pend _, ctr2, ktr) => (.nodePending (.jobj acc), ctr2, ktr)
    | (.done k r2, ctr2, ktr) =>
    match skipWSA ended r2 with
    | .fail e => (.nodeFail e (.jobj acc), ctr2, ktr ++ [.settle nid])
    | .pend => (.nodePending (.jobj acc), ctr2, ktr)
    | .ok _ r3 =>
    match expectA ended [58] r3 with
    | .fail e => (.nodeFail e (.jobj acc), ctr2, ktr ++ [.settle nid])
    | .pend => (.nodePending (.jobj acc), ctr2, ktr)
    | .ok _ r4 =>
    match parseFT f ended (.val true) r4 ctr2 with
    | (.spent, c, _) => (.spent, c, [])
    | (.preFail e, ctr3, vtr) => (.nodeFail e (.jobj acc), ctr3, ktr ++ vtr ++ [.settle nid])
    | (.prePend, ctr3, vtr) => (.nodePending (.jobj acc), ctr3, ktr ++ vtr)
    | (.nodeFail e v, ctr3, vtr) =>
        (.nodeFail e (.jobj (jsInsertK acc k v true)), ctr3,
          ktr ++ vtr ++ [.upd nid, .settle nid])
    | (.nodePending v, ctr3, vtr) =>
        (.nodePending (.jobj (jsInsertK acc k v false)), ctr3, ktr ++ vtr ++ [.upd nid])
    | (.nodeDone v r5, ctr3, vtr) =>
      let acc2 := jsInsertK acc k v true
      let pre := ktr ++ vtr ++ [Ev.upd nid]
      match skipWSA ended r5 with
      | .fail e => (.nodeFail e (.jobj acc2), ctr3, pre ++ [.settle nid])
      | .pend => (.nodePending (.jobj acc2), ctr3, pre)
      | .ok _ r6 =>
      match peek1A ended r6 with
      | .fail e => (.nodeFail e (.jobj acc2), ctr3, pre ++ [.settle nid])
      | .pend => (.nodePending (.jobj acc2), ctr3, pre)
      | .ok c2 _ =>
      if c2 = 125 then
        match expectA ended [125] r6 with
        | .ok _ r7 => (.nodeDone (.jobj acc2) r7, ctr3, pre ++ [.settle nid])
        | .fail e => (.nodeFail e (.jobj acc2), ctr3, pre ++ [.settle nid])
        | .pend => (.nodePending (.jobj acc2), ctr3, pre)
      else
        match expectA ended [44] r6 with
        | .fail e => (.nodeFail e (.jobj acc2), ctr3, pre ++ [.settle nid])
        | .pend => (.nodePending (.jobj acc2), ctr3, pre)
        | .ok _ r7 =>
          let rc := parseFT f ended (.objLoop nid acc2) r7 ctr3
          (rc.1, rc.2.1, pre ++ rc.2.2)
  | f + 1, ended, .arr, inp, ctr =>
    match expectA ended [91] inp with
    | .fail e => (.nodeFail e (.jarr .nil), ctr + 1, [.settle ctr])
    | .pend => (.nodePending (.jarr .nil), ctr + 1, [])
    | .ok _ r1 => parseFT f ended (.arrLoop ctr .nil) r1 (ctr + 1)
  | f + 1, ended, .arrLoop nid acc, inp, ctr =>
    match skipWSA ended inp with
    | .fail e => (.nodeFail e (.jarr acc), ctr, [.settle nid])
    | .pend => (.nodePending (.jarr acc), ctr, [])
    | .ok _ r1 =>
    match peek1A ended r1 with
    | .fail e => (.nodeFail e (.jarr acc), ctr, [.settle nid])
    | .pend => (.nodePending (.jarr acc), ctr, [])
    | .ok c _ =>
    if c = 93 then
      match expectA ended [93] r1 with
      | .ok _ r2 => (.nodeDone (.jarr acc) r2, ctr, [.settle nid])
      | .fail e => (.nodeFail e (.jarr acc), ctr, [.settle nid])
      | .pend => (.nodePending (.jarr acc), ctr, [])
    else
    match parseFT f ended (.val false) r1 ctr with
    | (.spent, c, _) => (.spent, c, [])
    | (.preFail e, ctr3, vtr) => (.nodeFail e (.jarr acc), ctr3, vtr ++ [.settle nid])
    | (.prePend, ctr3, vtr) => (.nodePending (.jarr acc), ctr3, vtr)
    | (.nodeFail e v, ctr3, vtr) =>
        (.nodeFail e (.jarr (acc.push v true)), ctr3, vtr ++ [.upd nid, .settle nid])
    | (.nodePending v, ctr3, vtr) =>
        (.nodePending (.jarr (acc.push v false)), ctr3, vtr ++ [.upd nid])
    | (.nodeDone v r5, ctr3, vtr) =>
      let acc2 := acc.push v true
      let pre := vtr ++ [Ev.upd nid]
      match skipWSA ended r5 with
      | .fail e => (.nodeFail e (.jarr acc2), ctr3, pre ++ [.settle nid])
      | .pend => (.nodePending (.jarr acc2), ctr3, pre)
      | .ok _ r6 =>
      match peek1A ended r6 with
      | .fail e => (.nodeFail e (.jarr acc2), ctr3, pre ++ [.settle nid])
      | .pend => (.nodePending (.jarr acc2), ctr3, pre)
      | .ok c2 _ =>
      if c2 = 93 then
        match expectA ended [93] r6 with
        | .ok _ r7 => (.nodeDone (.jarr acc2) r7, ctr3, pre ++ [.settle nid])
        | .fail e => (.nodeFail e (.jarr acc2), ctr3, pre ++ [.settle nid])
        | .pend => (.nodePending (.jarr acc2), ctr3, pre)
      else
        match expectA ended [44] r6 with
        | .fail e => (.nodeFail e (.jarr acc2), ctr3, pre ++ [.settle nid])
        | .pend => (.nodePending (.jarr acc2), ctr3, pre)
        | .ok _ r7 =>
          let rc := parseFT f ended (.arrLoop nid acc2) r7 ctr3
          (rc.1, rc.2.1, pre ++ rc.2.2)

/-- The engine's event trace at quiescence on a given input. -/
def engineTrace (inp : Input) (ended : Bool) : List Ev :=
  (parseFT (canonFuel inp) ended (.val true) inp 0).2.2

/-- The side condition a call tag carries into the induction: a loop's
own node was allocated before the loop resumed, so its id is below the
counter. -/
def tagLB : PCallT → Nat → Prop
  | .objLoop nid _, ctr => nid < ctr
  | .arrLoop nid _, ctr => nid < ctr
  | _, _ => True

/-- The node id a call tag owns, if any. -/
def tagN : PCallT → Option Nat
  | .objLoop nid _ => some nid
  | .arrLoop nid _ => some nid
  | _ => none

/-- Trace well-formedness of one builder run with counter interval
`[lo, hi)`: every event mentions an id allocated by this run, and no
node is updated after it settled. -/
def BndTr (lo hi : Nat) (tr : List Ev) : Prop :=
  (∀ e ∈ tr, lo ≤ evId e ∧ evId e < hi) ∧ noUAS tr

/-- Well-formedness of a loop-continuation trace: events mention either
the loop's own node `nid` or an id the continuation allocated. -/
def LTr (nid lo hi : Nat) (tr : List Ev) : Prop :=
  (∀ e ∈ tr, evId e = nid ∨ (lo ≤ evId e ∧ evId e < hi)) ∧ noUAS tr

/-- An open loop trace: well-formed and the loop's own node has not
settled in it. -/
def LTrO (nid lo hi : Nat) (tr : List Ev) : Prop :=
  LTr nid lo hi tr ∧ Ev.settle nid ∉ tr

/-- The induction invariant of `parseFT`: the counter grows, and the
run's trace is well formed over the ids it allocated (plus the calling
loop's own node, when the tag is a loop resumption). -/
def TrInv (tag : PCallT) (ctr : Nat) (p : VR × Nat × List Ev) : Prop :=
  ctr ≤ p.2.1 ∧
    (∀ e ∈ p.2.2, tagN tag = some (evId e) ∨ (ctr ≤ evId e ∧ evId e < p.2.1)) ∧
    noUAS p.2.2

/-! # Theorems -/

/-! ## Helper lemmas -/

theorem flatten_map_singleton (l : List Nat) : (l.map (fun ch => [ch])).flatten = l := by
  induction l with
  | nil => rfl
  | cons h t ih => simp [ih]

theorem numLoop_all_digits_eof :
    ∀ (cs : Input) (str : List Nat) (cur : Option ℚ),
      (∀ c ∈ cs, isDigit c = true ∨ c = 46) →
      ∃ v, numLoop true str cur cs = .fail .unexpectedEof v := by
  intro cs
  induction cs with
  | nil => exact fun str cur _ => ⟨cur, rfl⟩
  | cons c rest ih =>
    intro str cur h
    have hc := h c (List.mem_cons_self c rest)
    have hcond : (isDigit c || c = 46) = true := by
      rcases hc with h1 | h1 <;> simp [h1]
    rw [numLoop, if_pos (by simp [hcond])]
    exact ih _ _ (fun d hd => h d (List.mem_cons_of_mem _ hd))

theorem identLoop_all_ident_eof :
    ∀ (cs : Input) (acc : List Nat),
      (∀ c ∈ cs, isIdentChar c = true) →
      ∃ v, identLoop true acc cs = .fail .unexpectedEof v := by
  intro cs
  induction cs with
  | nil => exact fun acc _ => ⟨acc, rfl⟩
  | cons c rest ih =>
    intro acc h
    rw [identLoop, if_pos (by simp [h c (List.mem_cons_self c rest)])]
    exact ih _ (fun d hd => h d (List.mem_cons_of_mem _ hd))

/-! ## C9: chunking independence -/

/-- C9.  The resolved value is a function of the character sequence
alone, not of its chunking: pushing the whole document as one chunk
yields the same engine result as pushing its characters one at a time,
and in general any chunk decomposition is flattened to the same
character list before the cursor sees it (the constructor's
`queue.pipe(r => [...r]).flat()`).  Arrival timing cannot change the
result either: the engine's quiescent state depends only on the
characters consumed, which is what these equalities range over. -/
theorem C9_full_vs_incremental :
    (∀ (doc : List Nat) (ended : Bool),
      resolveEngineChunks [doc] ended = resolveEngineChunks (doc.map (fun ch => [ch])) ended)
  ∧ (∀ (chunks : List (List Nat)) (ended : Bool),
      resolveEngineChunks chunks ended = resolveEngine chunks.flatten ended) := by
  constructor
  · intro doc ended
    unfold resolveEngineChunks
    rw [flatten_map_singleton]
    simp
  · intro chunks ended
    rfl

/-! ## C7: the number node's snapshot trajectory -/

/-- C7.  Pushing `-`, `1`, `2`, `.`, `5` one character at a time: at each
quiescent point the number node's snapshot is, in order, 0 (the initial
value — the minus sign is consumed without an update), -1, -12, -12
(the trailing dot re-runs `Number` on `-12.`, same value), -12.5, and
each consumed digit or dot goes through one replace update
(`update(() => Number(str))`).  The first peeked character that is
neither a digit nor a dot ends the loop with the node resolved and that
character unconsumed. -/
theorem C7_number_snapshot_trajectory :
    parseNumberA false [] = .pend (some 0)
  ∧ parseNumberA false (cu "-") = .pend (some 0)
  ∧ parseNumberA false (cu "-1") = .pend (some (-1))
  ∧ parseNumberA false (cu "-12") = .pend (some (-12))
  ∧ parseNumberA false (cu "-12.") = .pend (some (-12))
  ∧ parseNumberA false (cu "-12.5") = .pend (some (-25/2))
  ∧ (∀ (ended : Bool) (str : List Nat) (cur : Option ℚ) (c : Nat) (rest : Input),
      isDigit c = false → c ≠ 46 →
      numLoop ended str cur (c :: rest) = .done cur (c :: rest)) := by
  refine ⟨rfl, by with_unfolding_all rfl, by with_unfolding_all rfl, by with_unfolding_all rfl,
    by with_unfolding_all rfl, by with_unfolding_all rfl, ?_⟩
  intro ended str cur c rest h1 h2
  rw [numLoop, if_neg (by simp [h1, h2])]

/-- Witness for C7's universal part: the comma after `-12.5` is left
unconsumed and the node resolves to the current snapshot. -/
theorem C7_number_snapshot_trajectory_witness :
    numLoop true (cu "-12.5") (some (-25/2)) [44] = .done (some (-25/2)) [44] :=
  C7_number_snapshot_trajectory.2.2.2.2.2.2 true (cu "-12.5") (some (-25/2)) 44 []
    (by decide) (by decide)

/-! ## C10: a value flush against the end of input rejects -/

/-- C10.  The digit loop and the identifier loop test their continuation
with `#peekNonEof`, so when the consumed value runs to the very end of
an ended source the next guard peek throws `Unexpected end of JSON
input` and the node's completion rejects, even though the consumed text
forms a complete value: any all-digit-or-dot input (with or without the
leading minus) fails `parseNumber` with `unexpectedEof`, any
all-identifier-character input fails `parseIdentifier` the same way,
and concretely the root document `12` leaves the root node's completion
rejected with `unexpectedEof` while its snapshot holds 12. -/
theorem C10_trailing_value_rejects :
    (∀ cs : Input, (∀ c ∈ cs, isDigit c = true ∨ c = 46) →
        ∃ v, parseNumberA true cs = .fail .unexpectedEof v)
  ∧ (∀ cs : Input, (∀ c ∈ cs, isDigit c = true ∨ c = 46) →
        ∃ v, parseNumberA true (45 :: cs) = .fail .unexpectedEof v)
  ∧ (∀ cs : Input, (∀ c ∈ cs, isIdentChar c = true) →
        ∃ v, parseIdentifierA true cs = .fail .unexpectedEof v)
  ∧ engineRoot (cu "12") true = .nodeFail .unexpectedEof (.jnum (some 12)) := by
  refine ⟨?_, ?_, ?_, by with_unfolding_all rfl⟩
  · intro cs h
    match cs with
    | [] => exact ⟨some 0, rfl⟩
    | c :: rest =>
      have hc := h c (List.mem_cons_self c rest)
      have hne : c ≠ 45 := by
        rcases hc with h1 | h1
        · simp [isDigit] at h1; omega
        · omega
      rw [parseNumberA]
      simp only [peek1A, if_neg hne]
      exact numLoop_all_digits_eof (c :: rest) [] (some 0) h
  · intro cs h
    rw [parseNumberA]
    simp only [peek1A, if_pos rfl]
    have hnext : nextNonEofA true 1 (45 :: cs) = .ok [45] cs := by
      simp [nextNonEofA, nextA, peekA, Nat.succ_le_succ]
    rw [hnext]
    exact numLoop_all_digits_eof cs [45] (some 0) h
  · intro cs h
    exact identLoop_all_ident_eof cs [] h

/-- Witness for C10: the bare root document `12` (and the bare
identifier `ab`) reject with `unexpectedEof`. -/
theorem C10_trailing_value_rejects_witness :
    (∃ v, parseNumberA true (cu "12") = .fail .unexpectedEof v)
  ∧ (∃ v, parseIdentifierA true (cu "ab") = .fail .unexpectedEof v) :=
  ⟨C10_trailing_value_rejects.1 (cu "12") (by decide),
   C10_trailing_value_rejects.2.2.1 (cu "ab") (by decide)⟩

/-! ## C4: key enumeration order -/

/-- C4, counterexample.  `data[key] = val` followed by `for...in`
enumeration follows ECMA-262 ordinary own property order, under which
array-index keys come first in ascending numeric order, before
insertion order applies: resolving the document with keys inserted in
the order `1`, `0` enumerates `0` before `1`, so the claim that key
enumeration order is always the insertion order is false. -/
theorem C4_key_order_cex :
    resolveEngine (cu "\x7b\"1\":1,\"0\":2\x7d") true =
      .val (.pobj [(cu "0", .pnum (some 2)), (cu "1", .pnum (some 1))])
  ∧ RRes.val (JPlain.pobj [(cu "0", .pnum (some 2)), (cu "1", .pnum (some 1))]) ≠
      .val (.pobj [(cu "1", .pnum (some 1)), (cu "0", .pnum (some 2))]) := by
  refine ⟨by with_unfolding_all rfl, ?_⟩
  simp [cu]

/-- C4, amended.  A key that is not an array index and is not already
present is appended to the object's enumeration order, so a document
whose keys are all non-index strings enumerates them in insertion
order; in particular resolving the document with keys `b` then `a`
yields the record enumerating `b` before `a` (array-index keys instead
enumerate first, in ascending numeric order, as the counterexample
shows). -/
theorem jsInsertK_fresh_append (k : List Nat) (v : PSnap) (s : Bool)
    (hni : isIdx k = false) :
    ∀ acc : KList, k ∉ objKeys acc → objKeys (jsInsertK acc k v s) = objKeys acc ++ [k]
  | .nil, _ => rfl
  | .cons k' v' s' t, hmem => by
    have hk : k ≠ k' := fun he => hmem (he ▸ List.mem_cons_self k' (objKeys t))
    rw [jsInsertK, if_neg hk, if_neg (by simp [hni])]
    simp only [objKeys, List.cons_append, List.cons.injEq, true_and]
    exact jsInsertK_fresh_append k v s hni t (fun hm => hmem (List.mem_cons_of_mem _ hm))

theorem C4_key_order_amended :
    (∀ (acc : KList) (k : List Nat) (v : PSnap) (s : Bool),
      isIdx k = false → k ∉ objKeys acc →
      objKeys (jsInsertK acc k v s) = objKeys acc ++ [k])
  ∧ resolveEngine (cu "\x7b\"b\":1,\"a\":2\x7d") true =
      .val (.pobj [(cu "b", .pnum (some 1)), (cu "a", .pnum (some 2))]) :=
  ⟨fun acc k v s hni hmem => jsInsertK_fresh_append k v s hni acc hmem,
   by with_unfolding_all rfl⟩

/-- Witness for C4's universal part: inserting the fresh non-index key
`a` after `b` appends it. -/
theorem C4_key_order_amended_witness :
    objKeys (jsInsertK (.cons (cu "b") (.jnum (some 1)) true .nil) (cu "a")
      (.jnum (some 2)) true) = [cu "b"] ++ [cu "a"] :=
  C4_key_order_amended.1 (.cons (cu "b") (.jnum (some 1)) true .nil) (cu "a")
    (.jnum (some 2)) true (by decide) (by simp [objKeys, cu])

/-! ## C5: string escapes -/

/-- The numeric value of a run of hexadecimal digits. -/
def hexNat (l : List Nat) : Nat := l.foldl (fun a c => 16 * a + hexDigitVal c) 0

theorem hexDigit_facts (c : Nat) (h : isHexDigit c = true) :
    isJsTrimWs c = false ∧ c ≠ 45 ∧ c ≠ 43 ∧ c ≠ 120 ∧ c ≠ 88 ∧ hexDigitVal c ≤ 15 := by
  simp only [isHexDigit, Bool.or_eq_true, Bool.and_eq_true, decide_eq_true_eq] at h
  refine ⟨?_, by omega, by omega, by omega, by omega, ?_⟩
  · simp only [isJsTrimWs, Bool.or_eq_false_iff, Bool.and_eq_false_iff,
      beq_eq_false_iff_ne, ne_eq, decide_eq_false_iff_not]
    omega
  · simp only [hexDigitVal]
    split_ifs <;> omega

theorem jsParseIntHex_four (h1 h2 h3 h4 : Nat)
    (hh : ∀ c ∈ [h1, h2, h3, h4], isHexDigit c = true) :
    jsParseIntHex [h1, h2, h3, h4] = some ((hexNat [h1, h2, h3, h4] : Nat) : Int)
    ∧ hexNat [h1, h2, h3, h4] < 65536 := by
  have f1 := hexDigit_facts h1 (hh h1 (by simp))
  have f2 := hexDigit_facts h2 (hh h2 (by simp))
  have f3 := hexDigit_facts h3 (hh h3 (by simp))
  have f4 := hexDigit_facts h4 (hh h4 (by simp))
  constructor
  · simp only [jsParseIntHex, List.dropWhile, f1.1, List.head?, hexNat]
    simp [hh h1 (by simp), hh h2 (by simp), hh h3 (by simp), hh h4 (by simp),
      f1.2.1, f1.2.2.1, f2.2.2.2.1, f2.2.2.2.2.1, List.takeWhile]
  · simp only [hexNat, List.foldl]
    omega

theorem jsParseIntHex_eight (h1 h2 h3 h4 h5 h6 h7 h8 : Nat)
    (hh : ∀ c ∈ [h1, h2, h3, h4, h5, h6, h7, h8], isHexDigit c = true) :
    jsParseIntHex [h1, h2, h3, h4, h5, h6, h7, h8] =
      some ((hexNat [h1, h2, h3, h4, h5, h6, h7, h8] : Nat) : Int) := by
  have f1 := hexDigit_facts h1 (hh h1 (by simp))
  have f2 := hexDigit_facts h2 (hh h2 (by simp))
  simp only [jsParseIntHex, List.dropWhile, f1.1, List.head?, hexNat]
  simp [hh h1 (by simp), hh h2 (by simp), hh h3 (by simp), hh h4 (by simp),
    hh h5 (by simp), hh h6 (by simp), hh h7 (by simp), hh h8 (by simp),
    f1.2.1, f1.2.2.1, f2.2.2.2.1, f2.2.2.2.2.1, List.takeWhile]

theorem fromCharCode_small (n : Nat) (h : n < 65536) :
    fromCharCode (some ((n : Nat) : Int)) = n := by
  simp only [fromCharCode]
  omega

theorem fromCharCode_mod (n : Nat) :
    fromCharCode (some ((n : Nat) : Int)) = n % 65536 := by
  simp only [fromCharCode]
  omega

theorem nextNonEofA_cons (ended : Bool) (c : Nat) (l : Input) :
    nextNonEofA ended 1 (c :: l) = .ok [c] l := by
  simp [nextNonEofA, nextA, peekA, Nat.succ_le_succ]

theorem expectA_cons_self (ended : Bool) (c : Nat) (l : Input) :
    expectA ended [c] (c :: l) = .ok [c] l := by
  simp [expectA, nextNonEofA_cons]

theorem peekNonEofA_cons (ended : Bool) (c : Nat) (l : Input) :
    peekNonEofA ended 1 (c :: l) = .ok [c] (c :: l) := by
  simp [peekNonEofA, peekA, Nat.succ_le_succ]

theorem strGo_close (ended : Bool) (acc : List Nat) (l : Input) :
    strGo ended .top acc (34 :: l) = .done acc (34 :: l) := by
  rw [strGo]
  norm_num

theorem strGo_backslash (ended : Bool) (acc : List Nat) (l : Input) :
    strGo ended .top acc (92 :: l) = strGo ended .esc acc l := by
  rw [strGo]
  norm_num

theorem strGo_table (ended : Bool) (acc : List Nat) (e m : Nat) (l : Input)
    (h : escTable e = some m) :
    strGo ended .esc acc (e :: l) = strGo ended .top (acc ++ [m]) l := by
  rw [strGo]
  simp [h]

theorem strGo_u (ended : Bool) (acc : List Nat) (l : Input) :
    strGo ended .esc acc (117 :: l) = strGo ended .hex4 acc l := by
  rw [strGo]
  norm_num [escTable]

theorem strGo_U (ended : Bool) (acc : List Nat) (l : Input) :
    strGo ended .esc acc (85 :: l) = strGo ended .hex8 acc l := by
  rw [strGo]
  norm_num [escTable]

theorem strGo_bad (ended : Bool) (acc : List Nat) (e : Nat) (l : Input)
    (h : escTable e = none) (h117 : e ≠ 117) (h85 : e ≠ 85) :
    strGo ended .esc acc (e :: l) = .fail (.invalidEscape e) acc := by
  rw [strGo]
  simp [h, h117, h85]

theorem strGo_hex4 (ended : Bool) (acc : List Nat) (h1 h2 h3 h4 : Nat) (l : Input) :
    strGo ended .hex4 acc (h1 :: h2 :: h3 :: h4 :: l) =
      strGo ended .top (acc ++ [fromCharCode (jsParseIntHex [h1, h2, h3, h4])]) l := by
  rw [strGo]

theorem strGo_hex8 (ended : Bool) (acc : List Nat) (h1 h2 h3 h4 h5 h6 h7 h8 : Nat) (l : Input) :
    strGo ended .hex8 acc (h1 :: h2 :: h3 :: h4 :: h5 :: h6 :: h7 :: h8 :: l) =
      strGo ended .top
        (acc ++ [fromCharCode (jsParseIntHex [h1, h2, h3, h4, h5, h6, h7, h8])]) l := by
  rw [strGo]

/-- C5, counterexample.  `\U` consumes 8 hexadecimal digits whose
decoded code point here is U+1F600 = 128512, but the builder appends
`String.fromCharCode` of it, which truncates to 16 bits: the resolved
string holds the single code unit 62976 (0xF600), not the decoded code
point, so "appends the decoded code point" fails for `\U` escapes at or
above 0x10000. -/
theorem C5_escape_decoding_cex :
    parseStringA true (cu "\"\\U0001F600\"") = .done [62976] []
  ∧ jsParseIntHex (cu "0001F600") = some 128512
  ∧ (62976 : Nat) ≠ 128512 :=
  ⟨by with_unfolding_all rfl, by with_unfolding_all rfl, by decide⟩

/-- C5, amended.  The string builder maps each single-character escape
through its table; `\u` consumes 4 hexadecimal digits and appends the
decoded code point (always below 0x10000, where `fromCharCode` is the
identity); `\U` consumes 8 hexadecimal digits and appends the decoded
value **modulo 2^16** (`String.fromCharCode`'s ToUint16), which is the
decoded code point only below 0x10000; any other escape character
fails with `Invalid escape sequence`; and `"\n\t\u00e9"` resolves to
newline, tab, U+00E9. -/
theorem C5_escape_decoding_amended :
    (∀ (ended : Bool) (e m : Nat) (rest : Input), escTable e = some m →
        parseStringA ended (34 :: 92 :: e :: 34 :: rest) = .done [m] rest)
  ∧ (∀ (ended : Bool) (h1 h2 h3 h4 : Nat) (rest : Input),
        (hh : ∀ c ∈ [h1, h2, h3, h4], isHexDigit c = true) →
        parseStringA ended (34 :: 92 :: 117 :: h1 :: h2 :: h3 :: h4 :: 34 :: rest) =
          .done [hexNat [h1, h2, h3, h4]] rest)
  ∧ (∀ (ended : Bool) (h1 h2 h3 h4 h5 h6 h7 h8 : Nat) (rest : Input),
        (hh : ∀ c ∈ [h1, h2, h3, h4, h5, h6, h7, h8], isHexDigit c = true) →
        parseStringA ended
            (34 :: 92 :: 85 :: h1 :: h2 :: h3 :: h4 :: h5 :: h6 :: h7 :: h8 :: 34 :: rest) =
          .done [hexNat [h1, h2, h3, h4, h5, h6, h7, h8] % 65536] rest)
  ∧ (∀ (ended : Bool) (e : Nat) (rest : Input), escTable e = none → e ≠ 117 → e ≠ 85 →
        parseStringA ended (34 :: 92 :: e :: rest) = .fail (.invalidEscape e) [])
  ∧ parseStringA true (cu "\"\\n\\t\\u00e9\"") = .done [10, 9, 233] [] := by
  refine ⟨?_, ?_, ?_, ?_, by with_unfolding_all rfl⟩
  · intro ended e m rest h
    simp only [parseStringA, expectA_cons_self, peekNonEofA_cons]
    rw [strGo_backslash, strGo_table ended [] e m _ h, strGo_close]
    simp [expectA_cons_self]
  · intro ended h1 h2 h3 h4 rest hh
    have hfour := jsParseIntHex_four h1 h2 h3 h4 hh
    simp only [parseStringA, expectA_cons_self, peekNonEofA_cons]
    rw [strGo_backslash, strGo_u, strGo_hex4, strGo_close]
    simp [expectA_cons_self, hfour.1, fromCharCode_small _ hfour.2]
  · intro ended h1 h2 h3 h4 h5 h6 h7 h8 rest hh
    simp only [parseStringA, expectA_cons_self, peekNonEofA_cons]
    rw [strGo_backslash, strGo_U, strGo_hex8, strGo_close]
    simp [expectA_cons_self, jsParseIntHex_eight h1 h2 h3 h4 h5 h6 h7 h8 hh, fromCharCode_mod]
  · intro ended e rest h h117 h85
    simp only [parseStringA, expectA_cons_self, peekNonEofA_cons]
    rw [strGo_backslash, strGo_bad ended [] e _ h h117 h85]

/-- Witness for C5's amended statement: the escapes `\n`, `\u00e9` and
the unrecognized `\q`. -/
theorem C5_escape_decoding_amended_witness :
    parseStringA true (34 :: 92 :: 110 :: 34 :: []) = .done [10] []
  ∧ parseStringA true (34 :: 92 :: 117 :: 48 :: 48 :: 101 :: 57 :: 34 :: []) = .done [hexNat [48, 48, 101, 57]] []
  ∧ parseStringA true (34 :: 92 :: 113 :: []) = .fail (.invalidEscape 113) [] :=
  ⟨C5_escape_decoding_amended.1 true 110 10 [] (by decide),
   C5_escape_decoding_amended.2.1 true 48 48 101 57 [] (by decide),
   C5_escape_decoding_amended.2.2.2.1 true 113 [] (by decide) (by decide) (by decide)⟩

/-! ## C1: what resolve() produces -/

mutual
theorem resolveSpec_settled :
    ∀ s : PSnap, allSettled s = true → resolveSpec s true = some (matNow s)
  | .jnull, _ => rfl
  | .jnum _, _ => rfl
  | .jbool _, _ => rfl
  | .jstr _, _ => rfl
  | .jarr l, h => by
    rw [resolveSpec, resolveSpecA_settled l (by simpa [allSettled] using h)]
    rfl
  | .jobj l, h => by
    rw [resolveSpec, resolveSpecO_settled l (by simpa [allSettled] using h)]
    rfl
theorem resolveSpecA_settled :
    ∀ l : PList, allSettledA l = true → resolveSpecA l = some (matNowA l)
  | .nil, _ => rfl
  | .cons v s t, h => by
    have h3 : s = true ∧ allSettled v = true ∧ allSettledA t = true := by
      simpa [allSettledA, Bool.and_eq_true, and_assoc] using h
    rw [resolveSpecA, h3.1, resolveSpec_settled v h3.2.1, resolveSpecA_settled t h3.2.2]
    rfl
theorem resolveSpecO_settled :
    ∀ l : KList, allSettledO l = true → resolveSpecO l = some (matNowO l)
  | .nil, _ => rfl
  | .cons k v s t, h => by
    have h3 : s = true ∧ allSettled v = true ∧ allSettledO t = true := by
      simpa [allSettledO, Bool.and_eq_true, and_assoc] using h
    rw [resolveSpecO, h3.1, resolveSpec_settled v h3.2.1, resolveSpecO_settled t h3.2.2]
    rfl
end

/-- C1, counterexample.  With the prefix `[1,` pushed and the source not
ended, the root node's completion future is still pending (it can never
resolve on this input), yet `resolve()` settles with the value `[1]`:
`resolve()` awaits only `#stream` — the promise of the root node object,
which resolved as soon as the dispatcher picked the array builder — and
`#resolve` walks the current snapshots synchronously; no completion
future is awaited before recursing, contrary to the claim. -/
theorem C1_resolve_cex :
    engineRoot (cu "[1,") false = .nodePending (.jarr (.cons (.jnum (some 1)) true .nil))
  ∧ resolveEngine (cu "[1,") false = .val (.parr [.pnum (some 1)]) :=
  ⟨by with_unfolding_all rfl, by with_unfolding_all rfl⟩

/-- C1, amended.  `resolve()` awaits only the availability of the root
node (`#stream`) and then materializes the current snapshots
synchronously and recursively — sequence elements in order, mapping
values preserving the mapping's enumeration order, scalars as-is — so
its output is always a plain value with no partial nodes, but it is the
final fully-materialized value only when the parse has completed.  On a
tree all of whose completions have resolved, that synchronous
materialization agrees with the spec's await-then-recurse resolver; and
whenever the root parse has completed, `resolve()` returns exactly the
materialization of the root's final snapshot. -/
theorem C1_resolve_amended :
    (∀ s : PSnap, allSettled s = true → resolveSpec s true = some (matNow s))
  ∧ (∀ (inp : Input) (ended : Bool) (s : PSnap) (rest : Input),
      engineRoot inp ended = .nodeDone s rest → resolveEngine inp ended = .val (matNow s)) := by
  refine ⟨resolveSpec_settled, ?_⟩
  intro inp ended s rest h
  simp [resolveEngine, h]

/-- Witness for C1's amended statement: a settled two-node tree, and the
completed parse of `[1]`. -/
theorem C1_resolve_amended_witness :
    resolveSpec (.jarr (.cons .jnull true .nil)) true = some (matNow (.jarr (.cons .jnull true .nil)))
  ∧ resolveEngine (cu "[1]") true = .val (matNow (.jarr (.cons (.jnum (some 1)) true .nil))) :=
  ⟨C1_resolve_amended.1 (.jarr (.cons .jnull true .nil)) (by with_unfolding_all rfl),
   C1_resolve_amended.2 (cu "[1]") true (.jarr (.cons (.jnum (some 1)) true .nil)) []
     (by with_unfolding_all rfl)⟩

/-! ## C2: failure propagation -/

theorem strGo_plain (ended : Bool) (acc : List Nat) (c : Nat) (l : Input)
    (h34 : c ≠ 34) (h92 : c ≠ 92) :
    strGo ended .top acc (c :: l) = strGo ended .top (acc ++ [c]) l := by
  rw [strGo]
  simp [h34, h92]

theorem skipWSA_nonws (ended : Bool) (c : Nat) (l : Input) (h : isWhitespace c = false) :
    skipWSA ended (c :: l) = .ok () (c :: l) := by
  rw [skipWSA]
  simp [h]

theorem peek1A_cons (ended : Bool) (c : Nat) (l : Input) :
    peek1A ended (c :: l) = .ok c (c :: l) := rfl

/-- C2, counterexample.  On `{"a":tru}` the boolean child's body throws
the `Expected 'true'` mismatch, the object builder awaiting `val.wait`
re-raises it, and the root object node's completion rejects with that
error — but the caller of `resolve()` does **not** observe a failure:
`resolve()` awaited only `#stream`, which had already resolved with the
root node, and it returns the materialized current snapshot
`{a: true}`.  (This is the spec's own "error on malformed literal"
document, silently resolving to `true`.) -/
theorem C2_propagation_cex :
    engineRoot (cu "\x7b\"a\":tru\x7d") true =
      .nodeFail (.tokenMismatch (cu "true") (cu "tru\x7d"))
        (.jobj (.cons (cu "a") (.jbool true) true .nil))
  ∧ resolveEngine (cu "\x7b\"a\":tru\x7d") true = .val (.pobj [(cu "a", .pbool true)]) :=
  ⟨by with_unfolding_all rfl, by with_unfolding_all rfl⟩

/-- C2, amended.  A nested builder's rejection is re-raised by the
composite builder awaiting the child's completion, so it propagates to
the composite's own completion (and hence, level by level, to the root
node's completion): an object iteration whose dispatched value fails
with `e` fails the object with `e` (the child, already attached, kept);
an array iteration likewise.  But `resolve()` awaits no completion
future, so its caller observes the failure only when it happens before
the root node exists (in the initial whitespace skip, peek, or
dispatch): then `#stream` itself rejects and `resolve()` rejects with
the same error.  A failure inside a builder's body instead leaves
`resolve()` returning the materialized current snapshot (see the
counterexample). -/
theorem C2_propagation_amended :
    (∀ (f : Nat) (ended : Bool) (acc : KList) (e : Err) (v : PSnap) (cs : Input),
        parseF f ended (.val true) cs = .nodeFail e v →
        parseF (f + 1) ended (.objLoop acc) (cu "\"k\":" ++ cs) =
          .nodeFail e (.jobj (jsInsertK acc (cu "k") v true)))
  ∧ (∀ (f : Nat) (ended : Bool) (acc : PList) (e : Err) (v : PSnap) (c : Nat) (cs : Input),
        isWhitespace c = false → c ≠ 93 →
        parseF f ended (.val false) (c :: cs) = .nodeFail e v →
        parseF (f + 1) ended (.arrLoop acc) (c :: cs) =
          .nodeFail e (.jarr (acc.push v true)))
  ∧ (∀ (inp : Input) (ended : Bool) (e : Err),
        engineRoot inp ended = .preFail e → resolveEngine inp ended = .err e) := by
  refine ⟨?_, ?_, ?_⟩
  · intro f ended acc e v cs h
    have hpre : cu "\"k\":" ++ cs = 34 :: 107 :: 34 :: 58 :: cs := by
      rw [show cu "\"k\":" = [34, 107, 34, 58] from by decide]
      rfl
    have hk : cu "k" = [107] := by decide
    have hkey : parseKeyA ended (34 :: 107 :: 34 :: 58 :: cs) = .done [107] (58 :: cs) := by
      simp only [parseKeyA, peek1A_cons, if_true]
      simp only [parseStringA, expectA_cons_self, peekNonEofA_cons]
      rw [strGo_plain ended [] 107 _ (by decide) (by decide), strGo_close]
      simp only [expectA_cons_self, List.nil_append]
    rw [hpre, hk, parseF, skipWSA_nonws ended 34 _ (by decide)]
    simp only []
    rw [peek1A_cons]
    simp only []
    rw [if_neg (show ¬ (34 : Nat) = 125 from by decide), hkey]
    simp only []
    rw [skipWSA_nonws ended 58 _ (by decide)]
    simp only []
    rw [expectA_cons_self]
    simp only []
    rw [h]
  · intro f ended acc e v c cs hws h93 h
    rw [parseF, skipWSA_nonws _ _ _ hws]
    simp only []
    rw [peek1A_cons]
    simp only []
    rw [if_neg h93, h]
  · intro inp ended e h
    simp [resolveEngine, h]

/-- Witness for C2's amended statement: the failing boolean child
`tru}` under key `k`, the same child as an array element, and a
dispatch-phase failure observed by `resolve()`. -/
theorem C2_propagation_amended_witness :
    parseF 9 true (.objLoop .nil) (cu "\"k\":" ++ cu "tru\x7d") =
      .nodeFail (.tokenMismatch (cu "true") (cu "tru\x7d"))
        (.jobj (jsInsertK .nil (cu "k") (.jbool true) true))
  ∧ parseF 9 true (.arrLoop .nil) (cu "tru\x7d") =
      .nodeFail (.tokenMismatch (cu "true") (cu "tru\x7d")) (.jarr (PList.nil.push (.jbool true) true))
  ∧ resolveEngine (cu "x") true = .err (.unexpectedToken 120) :=
  ⟨C2_propagation_amended.1 8 true .nil _ _ (cu "tru\x7d") (by with_unfolding_all rfl),
   C2_propagation_amended.2.1 8 true .nil _ _ 116 (cu "ru\x7d") (by decide) (by decide)
     (by with_unfolding_all rfl),
   C2_propagation_amended.2.2 (cu "x") true _ (by with_unfolding_all rfl)⟩

/-! ## C3: the cursor's buffer/index invariant -/

theorem fillC_cur (index len : Nat) (ended : Bool) :
    ∀ (src text : List Nat),
      (fillC index len ended text src).cur.index = index ∧
      (fillC index len ended text src).cur.ended = ended ∧
      text.length ≤ (fillC index len ended text src).cur.text.length := by
  intro src
  induction src with
  | nil =>
    intro text
    rw [fillC]
    split_ifs <;> simp [PkC.cur]
  | cons ch rest ih =>
    intro text
    rw [fillC]
    split_ifs with hc
    · obtain ⟨h1, h2, h3⟩ := ih (text ++ [ch])
      exact ⟨h1, h2, le_trans (by simp) h3⟩
    · simp [PkC.cur]

theorem fillC_ok_bound (index len : Nat) (ended : Bool) :
    ∀ (src text s : List Nat) (c2 : Cursor),
      fillC index len ended text src = .ok s c2 → index + len ≤ c2.text.length := by
  intro src
  induction src with
  | nil =>
    intro text s c2 h
    rw [fillC] at h
    split_ifs at h with hc
    all_goals cases h
    exact Nat.le_of_not_lt hc
  | cons ch rest ih =>
    intro text s c2 h
    rw [fillC] at h
    split_ifs at h with hc
    · exact ih (text ++ [ch]) s c2 h
    · cases h
      exact Nat.le_of_not_lt hc

theorem fillC_no_need (index len : Nat) (ended : Bool) (text src : List Nat)
    (h : ¬ text.length < index + len) :
    fillC index len ended text src = .ok ((text.drop index).take len) ⟨text, index, src, ended⟩ := by
  cases src <;> rw [fillC] <;> simp [h]

theorem fillC_src_nil (index len : Nat) (ended : Bool) (text : List Nat) :
    (fillC index len ended text []).cur.text = text := by
  rw [fillC]
  split_ifs <;> simp [PkC.cur]

theorem peekC_inv (len : Nat) (c : Cursor) (h : invC c) : invC (peekC len c).cur := by
  obtain ⟨h1, _, h3⟩ := fillC_cur c.index len c.ended c.src c.text
  rw [peekC]
  rw [invC, h1]
  exact le_trans h h3

theorem peekC_ok_facts (len : Nat) (c : Cursor) (s : List Nat) (c2 : Cursor)
    (h : peekC len c = .ok s c2) : c2.index = c.index ∧ c2.index + len ≤ c2.text.length := by
  have hcur := fillC_cur c.index len c.ended c.src c.text
  have hb := fillC_ok_bound c.index len c.ended c.src c.text s c2 h
  rw [peekC] at h
  rw [h] at hcur
  exact ⟨hcur.1, hcur.1 ▸ hb⟩

theorem nextC_ok_inv (len : Nat) (c : Cursor) (s : List Nat) (c2 : Cursor)
    (h : nextC len c = .ok s c2) : invC c2 := by
  rw [nextC] at h
  cases hp : peekC len c with
  | ok s2 c3 =>
    rw [hp] at h
    cases h
    obtain ⟨_, hb⟩ := peekC_ok_facts len c s c3 hp
    simpa [invC] using hb
  | undef c3 => rw [hp] at h; cases h
  | pend c3 => rw [hp] at h; cases h

theorem peekNonEofC_cur (len : Nat) (c : Cursor) :
    (peekNonEofC len c).cur = (peekC len c).cur := by
  rw [peekNonEofC]
  cases peekC len c <;> rfl

theorem peekNonEofC_ok_peek (len : Nat) (c : Cursor) (s : List Nat) (c2 : Cursor)
    (h : peekNonEofC len c = .ok s c2) : peekC len c = .ok s c2 := by
  rw [peekNonEofC] at h
  cases hp : peekC len c with
  | ok a c3 =>
    rw [hp] at h
    cases h
    rfl
  | undef c3 =>
    rw [hp] at h
    cases h
  | pend c3 =>
    rw [hp] at h
    cases h

theorem nextNonEofC_ok_inv (len : Nat) (c : Cursor) (s : List Nat) (c2 : Cursor)
    (h : nextNonEofC len c = .ok s c2) : invC c2 := by
  rw [nextNonEofC] at h
  cases hn : nextC len c <;> rw [hn] at h <;> cases h
  exact nextC_ok_inv len c s c2 hn

theorem expectC_ok_inv (ex : List Nat) (c : Cursor) (s : List Nat) (c2 : Cursor)
    (h : expectC ex c = .ok s c2) : invC c2 := by
  rw [expectC] at h
  cases hn : nextNonEofC ex.length c with
  | ok a c3 =>
    rw [hn] at h
    simp only [] at h
    split_ifs at h
    cases h
    exact nextNonEofC_ok_inv ex.length c s c2 hn
  | fail e c3 =>
    rw [hn] at h
    cases h
  | pend c3 =>
    rw [hn] at h
    cases h

theorem skipWSC_inv (fuel : Nat) : ∀ c : Cursor, invC c → invS (skipWSC fuel c) := by
  induction fuel with
  | zero => intro c _; trivial
  | succ fuel ih =>
    intro c hc
    rw [skipWSC]
    cases hp : peekNonEofC 1 c with
    | fail e c2 =>
      have : invC (peekNonEofC 1 c).cur := peekNonEofC_cur 1 c ▸ peekC_inv 1 c hc
      rw [hp] at this
      exact this
    | pend c2 =>
      have : invC (peekNonEofC 1 c).cur := peekNonEofC_cur 1 c ▸ peekC_inv 1 c hc
      rw [hp] at this
      exact this
    | ok s c2 =>
      obtain ⟨_, hb⟩ := peekC_ok_facts 1 c s c2 (peekNonEofC_ok_peek 1 c s c2 hp)
      have hnext : nextNonEofC 1 c2 =
          .ok ((c2.text.drop c2.index).take 1) ⟨c2.text, c2.index + 1, c2.src, c2.ended⟩ := by
        rw [nextNonEofC, nextC, peekC, fillC_no_need _ _ _ _ _ (by omega)]
      simp only []
      split_ifs
      · rw [hnext]
        exact ih _ (by simpa [invC] using hb)
      · exact (by simpa [invC] using le_trans (Nat.le_add_right _ 1) hb : invC c2)

theorem cursor_text_frozen (len : Nat) (c : Cursor) (h : c.src = []) :
    (peekC len c).cur.text = c.text ∧ (nextC len c).cur.text = c.text := by
  have hp : (peekC len c).cur.text = c.text := by
    rw [peekC, h]
    exact fillC_src_nil c.index len c.ended c.text
  refine ⟨hp, ?_⟩
  rw [nextC]
  cases hpk : peekC len c <;> rw [hpk] at hp <;> simpa [PkC.cur] using hp

/-- C3, counterexample.  `#next` adds `len` to the read index after the
peek, also when the peek came back `undefined` at end of stream: on the
exhausted, ended cursor a `next(1)` completes (returning `undefined`)
and leaves `index = 1 > 0 = buffer.length`, so the invariant does not
hold after every cursor operation that encounters end-of-stream. -/
theorem C3_cursor_invariant_cex :
    nextC 1 ⟨[], 0, [], true⟩ = .undef ⟨[], 1, [], true⟩ ∧ ¬ invC ⟨[], 1, [], true⟩ :=
  ⟨rfl, by simp [invC]⟩

/-- C3, amended.  `index ≤ buffer.length` is preserved by every peek
(plain or non-EOF), by every `next`/`nextNonEof`/`expect` that obtains
its characters, and by the whitespace skip in all cases (its `next` runs
only after a successful peek of the same character); the one breach is a
`next` whose peek hits end of stream, which still adds `len` to the
index (the counterexample).  And once the source is exhausted the
buffer never grows again: with nothing left to pull, peek and next
leave `text` unchanged. -/
theorem C3_cursor_invariant_amended :
    (∀ (len : Nat) (c : Cursor), invC c → invC (peekC len c).cur)
  ∧ (∀ (len : Nat) (c : Cursor), invC c → invC (peekNonEofC len c).cur)
  ∧ (∀ (len : Nat) (c : Cursor) (s : List Nat) (c2 : Cursor), nextC len c = .ok s c2 → invC c2)
  ∧ (∀ (len : Nat) (c : Cursor) (s : List Nat) (c2 : Cursor),
      nextNonEofC len c = .ok s c2 → invC c2)
  ∧ (∀ (ex : List Nat) (c : Cursor) (s : List Nat) (c2 : Cursor),
      expectC ex c = .ok s c2 → invC c2)
  ∧ (∀ (fuel : Nat) (c : Cursor), invC c → invS (skipWSC fuel c))
  ∧ (∀ (len : Nat) (c : Cursor), c.src = [] →
      (peekC len c).cur.text = c.text ∧ (nextC len c).cur.text = c.text) :=
  ⟨peekC_inv,
   fun len c h => peekNonEofC_cur len c ▸ peekC_inv len c h,
   nextC_ok_inv, nextNonEofC_ok_inv, expectC_ok_inv, skipWSC_inv, cursor_text_frozen⟩

/-- Witness for C3's amended statement: a peek that grows the buffer
from the queue and a successful next, on concrete cursors. -/
theorem C3_cursor_invariant_amended_witness :
    invC (peekC 2 ⟨[97], 0, [98, 99], false⟩).cur
  ∧ invC ⟨[97], 1, [], true⟩ :=
  ⟨C3_cursor_invariant_amended.1 2 ⟨[97], 0, [98, 99], false⟩ (by simp [invC]),
   C3_cursor_invariant_amended.2.2.1 1 ⟨[97], 0, [], true⟩ [97] ⟨[97], 1, [], true⟩
     (by with_unfolding_all rfl)⟩

/-! ## C6: attach before await, settle after children -/

/-- The requirement a call tag carries into the induction: a loop resumes
with the fields attached so far, all of which have settled. -/
def accSettled : PCall → Bool
  | .objLoop acc => allSettledO acc
  | .arrLoop acc => allSettledA acc
  | _ => true

theorem allSettledO_insert (k : List Nat) (v : PSnap) (hv : allSettled v = true) :
    ∀ acc : KList, allSettledO acc = true → allSettledO (jsInsertK acc k v true) = true
  | .nil, _ => by simp [jsInsertK, allSettledO, hv]
  | .cons k2 v2 s2 t, h => by
    rw [jsInsertK]
    simp only [allSettledO, Bool.and_eq_true] at h
    split_ifs with h1 h2
    · simp [allSettledO, hv, h.2]
    · simp [allSettledO, hv, h.1.1, h.1.2, h.2]
    · simp only [allSettledO, Bool.and_eq_true]
      exact ⟨⟨h.1.1, h.1.2⟩, allSettledO_insert k v hv t h.2⟩

theorem allSettledA_push (v : PSnap) (hv : allSettled v = true) :
    ∀ acc : PList, allSettledA acc = true → allSettledA (acc.push v true) = true
  | .nil, _ => by simp [PList.push, allSettledA, hv]
  | .cons h2 s2 t, h => by
    rw [PList.push]
    simp only [allSettledA, Bool.and_eq_true] at h ⊢
    exact ⟨⟨h.1.1, h.1.2⟩, allSettledA_push v hv t h.2⟩

theorem liftNode_done_settled {α : Type} (emb : α → PSnap)
    (hemb : ∀ a, allSettled (emb a) = true)
    (r : PR α) (v : PSnap) (rest : Input) (h : liftNode emb r = .nodeDone v rest) :
    allSettled v = true := by
  cases r with
  | done a r2 =>
    rw [liftNode] at h
    cases h
    exact hemb a
  | fail e a => rw [liftNode] at h; cases h
  | pend a => rw [liftNode] at h; cases h

theorem parseF_done_settled :
    ∀ (f : Nat) (ended : Bool) (tag : PCall) (inp : Input) (v : PSnap) (rest : Input),
      accSettled tag = true → parseF f ended tag inp = .nodeDone v rest →
      allSettled v = true := by
  intro f
  induction f with
  | zero =>
    intro ended tag inp v rest _ h
    rw [parseF] at h
    cases h
  | succ f ih =>
    intro ended tag inp v rest hacc h
    cases tag with
    | val skip =>
      rw [parseF] at h
      cases skip with
      | true =>
        simp only [if_true] at h
        cases hs : skipWSA ended inp with
        | ok u r1 =>
          rw [hs] at h
          simp only [] at h
          exact ih ended .disp r1 v rest rfl h
        | fail e => rw [hs] at h; simp only [] at h; cases h
        | pend => rw [hs] at h; simp only [] at h; cases h
      | false =>
        simp only [if_false, Bool.false_eq_true] at h
        exact ih ended .disp inp v rest rfl h
    | disp =>
      rw [parseF] at h
      cases hp : peek1A ended inp with
      | fail e => rw [hp] at h; simp only [] at h; cases h
      | pend => rw [hp] at h; simp only [] at h; cases h
      | ok c r0 =>
        rw [hp] at h
        simp only [] at h
        split_ifs at h
        · exact ih ended .obj inp v rest rfl h
        · exact ih ended .arr inp v rest rfl h
        · exact liftNode_done_settled PSnap.jstr (fun a => rfl) _ v rest h
        · exact liftNode_done_settled PSnap.jbool (fun a => rfl) _ v rest h
        · exact liftNode_done_settled PSnap.jbool (fun a => rfl) _ v rest h
        · exact liftNode_done_settled (fun _ => PSnap.jnull) (fun a => rfl) _ v rest h
        · exact liftNode_done_settled PSnap.jnum (fun a => rfl) _ v rest h
    | obj =>
      rw [parseF] at h
      cases he : expectA ended [123] inp with
      | ok u r1 =>
        rw [he] at h
        simp only [] at h
        exact ih ended (.objLoop .nil) r1 v rest rfl h
      | fail e => rw [he] at h; simp only [] at h; cases h
      | pend => rw [he] at h; simp only [] at h; cases h
    | arr =>
      rw [parseF] at h
      cases he : expectA ended [91] inp with
      | ok u r1 =>
        rw [he] at h
        simp only [] at h
        exact ih ended (.arrLoop .nil) r1 v rest rfl h
      | fail e => rw [he] at h; simp only [] at h; cases h
      | pend => rw [he] at h; simp only [] at h; cases h
    | objLoop acc =>
      rw [parseF] at h
      simp only [accSettled] at hacc
      cases h1 : skipWSA ended inp with
      | fail e => rw [h1] at h; simp only [] at h; cases h
      | pend => rw [h1] at h; simp only [] at h; cases h
      | ok u1 r1 =>
      rw [h1] at h
      simp only [] at h
      cases h2 : peek1A ended r1 with
      | fail e => rw [h2] at h; simp only [] at h; cases h
      | pend => rw [h2] at h; simp only [] at h; cases h
      | ok c r2 =>
      rw [h2] at h
      simp only [] at h
      split_ifs at h with hc
      · cases h3 : expectA ended [125] r1 with
        | ok u r3 =>
          rw [h3] at h
          simp only [] at h
          cases h
          simpa [allSettled] using hacc
        | fail e => rw [h3] at h; simp only [] at h; cases h
        | pend => rw [h3] at h; simp only [] at h; cases h
      · cases h4 : parseKeyA ended r1 with
        | fail e a => rw [h4] at h; simp only [] at h; cases h
        | pend a => rw [h4] at h; simp only [] at h; cases h
        | done k r3 =>
        rw [h4] at h
        simp only [] at h
        cases h5 : skipWSA ended r3 with
        | fail e => rw [h5] at h; simp only [] at h; cases h
        | pend => rw [h5] at h; simp only [] at h; cases h
        | ok u2 r4 =>
        rw [h5] at h
        simp only [] at h
        cases h6 : expectA ended [58] r4 with
        | fail e => rw [h6] at h; simp only [] at h; cases h
        | pend => rw [h6] at h; simp only [] at h; cases h
        | ok u3 r5 =>
        rw [h6] at h
        simp only [] at h
        cases h7 : parseF f ended (.val true) r5 with
        | preFail e => rw [h7] at h; simp only [] at h; cases h
        | prePend => rw [h7] at h; simp only [] at h; cases h
        | nodeFail e vx => rw [h7] at h; simp only [] at h; cases h
        | nodePending vx => rw [h7] at h; simp only [] at h; cases h
        | spent => rw [h7] at h; simp only [] at h; cases h
        | nodeDone vc r6 =>
        rw [h7] at h
        simp only [] at h
        have hvc : allSettled vc = true := ih ended (.val true) r5 vc r6 rfl h7
        have hacc2 : allSettledO (jsInsertK acc k vc true) = true :=
          allSettledO_insert k vc hvc acc hacc
        cases h8 : skipWSA ended r6 with
        | fail e => rw [h8] at h; simp only [] at h; cases h
        | pend => rw [h8] at h; simp only [] at h; cases h
        | ok u4 r7 =>
        rw [h8] at h
        simp only [] at h
        cases h9 : peek1A ended r7 with
        | fail e => rw [h9] at h; simp only [] at h; cases h
        | pend => rw [h9] at h; simp only [] at h; cases h
        | ok c2 r8 =>
        rw [h9] at h
        simp only [] at h
        split_ifs at h with hc2
        · cases h10 : expectA ended [125] r7 with
          | ok u r9 =>
            rw [h10] at h
            simp only [] at h
            cases h
            simpa [allSettled] using hacc2
          | fail e => rw [h10] at h; simp only [] at h; cases h
          | pend => rw [h10] at h; simp only [] at h; cases h
        · cases h11 : expectA ended [44] r7 with
          | fail e => rw [h11] at h; simp only [] at h; cases h
          | pend => rw [h11] at h; simp only [] at h; cases h
          | ok u5 r9 =>
            rw [h11] at h
            simp only [] at h
            exact ih ended (.objLoop (jsInsertK acc k vc true)) r9 v rest
              (by simpa [accSettled] using hacc2) h
    | arrLoop acc =>
      rw [parseF] at h
      simp only [accSettled] at hacc
      cases h1 : skipWSA ended inp with
      | fail e => rw [h1] at h; simp only [] at h; cases h
      | pend => rw [h1] at h; simp only [] at h; cases h
      | ok u1 r1 =>
      rw [h1] at h
      simp only [] at h
      cases h2 : peek1A ended r1 with
      | fail e => rw [h2] at h; simp only [] at h; cases h
      | pend => rw [h2] at h; simp only [] at h; cases h
      | ok c r2 =>
      rw [h2] at h
      simp only [] at h
      split_ifs at h with hc
      · cases h3 : expectA ended [93] r1 with
        | ok u r3 =>
          rw [h3] at h
          simp only [] at h
          cases h
          simpa [allSettled] using hacc
        | fail e => rw [h3] at h; simp only [] at h; cases h
        | pend => rw [h3] at h; simp only [] at h; cases h
      · cases h7 : parseF f ended (.val false) r1 with
        | preFail e => rw [h7] at h; simp only [] at h; cases h
        | prePend => rw [h7] at h; simp only [] at h; cases h
        | nodeFail e vx => rw [h7] at h; simp only [] at h; cases h
        | nodePending vx => rw [h7] at h; simp only [] at h; cases h
        | spent => rw [h7] at h; simp only [] at h; cases h
        | nodeDone vc r6 =>
        rw [h7] at h
        simp only [] at h
        have hvc : allSettled vc = true := ih ended (.val false) r1 vc r6 rfl h7
        have hacc2 : allSettledA (acc.push vc true) = true := allSettledA_push vc hvc acc hacc
        cases h8 : skipWSA ended r6 with
        | fail e => rw [h8] at h; simp only [] at h; cases h
        | pend => rw [h8] at h; simp only [] at h; cases h
        | ok u4 r7 =>
        rw [h8] at h
        simp only [] at h
        cases h9 : peek1A ended r7 with
        | fail e => rw [h9] at h; simp only [] at h; cases h
        | pend => rw [h9] at h; simp only [] at h; cases h
        | ok c2 r8 =>
        rw [h9] at h
        simp only [] at h
        split_ifs at h with hc2
        · cases h10 : expectA ended [93] r7 with
          | ok u r9 =>
            rw [h10] at h
            simp only [] at h
            cases h
            simpa [allSettled] using hacc2
          | fail e => rw [h10] at h; simp only [] at h; cases h
          | pend => rw [h10] at h; simp only [] at h; cases h
        · cases h11 : expectA ended [44] r7 with
          | fail e => rw [h11] at h; simp only [] at h; cases h
          | pend => rw [h11] at h; simp only [] at h; cases h
          | ok u5 r9 =>
            rw [h11] at h
            simp only [] at h
            exact ih ended (.arrLoop (acc.push vc true)) r9 v rest
              (by simpa [accSettled] using hacc2) h


/-- C6.  After pushing the prefix `{"title":"hi` (no closing quote) the
root object snapshot already holds the key `title`, mapped to a string
node whose snapshot is `hi` and whose completion future has not
resolved, while the object's own completion is also pending: the child
was attached by the deep update before the object awaited its
completion.  And a composite's completion resolves only after every
child's completion has: whenever the grammar returns a resolved node,
every node of its snapshot has settled. -/
theorem C6_attach_before_await :
    engineRoot (cu "\x7b\"title\":\"hi") false =
      .nodePending (.jobj (.cons (cu "title") (.jstr (cu "hi")) false .nil))
  ∧ (∀ (f : Nat) (ended : Bool) (tag : PCall) (inp : Input) (v : PSnap) (rest : Input),
      accSettled tag = true → parseF f ended tag inp = .nodeDone v rest →
      allSettled v = true) :=
  ⟨by with_unfolding_all rfl, parseF_done_settled⟩

/-- Witness for C6's universal part: the completed parse of the empty
object. -/
theorem C6_attach_before_await_witness :
    allSettled (.jobj KList.nil) = true :=
  C6_attach_before_await.2 (canonFuel (cu "\x7b\x7d")) true (.val true) (cu "\x7b\x7d") (.jobj .nil) []
    rfl (by with_unfolding_all rfl)


/-! ## C8: snapshots are frozen once the completion settles -/

theorem noUAS_nil : noUAS [] := trivial

theorem noUAS_append {t2 : List Ev} (h2 : noUAS t2) :
    ∀ {t1 : List Ev}, noUAS t1 → (∀ i, Ev.settle i ∈ t1 → Ev.upd i ∉ t2) →
      noUAS (t1 ++ t2) := by
  intro t1
  induction t1 with
  | nil => intro _ _; simpa using h2
  | cons e t ih =>
    intro h1 hd
    cases e with
    | upd j =>
      rw [List.cons_append]
      show noUAS (t ++ t2)
      exact ih h1 (fun i hi => hd i (List.mem_cons_of_mem _ hi))
    | settle j =>
      rw [List.cons_append]
      refine ⟨?_, ?_⟩
      · intro hmem
        rcases List.mem_append.1 hmem with hm | hm
        · exact h1.1 hm
        · exact hd j (List.mem_cons_self _ _) hm
      · exact ih h1.2 (fun i hi => hd i (List.mem_cons_of_mem _ hi))

theorem noUAS_settle_end {t : List Ev} (h : noUAS t) (i : Nat) :
    noUAS (t ++ [Ev.settle i]) := by
  refine noUAS_append ?_ h ?_
  · exact ⟨by simp, trivial⟩
  · intro j _ hm
    rw [List.mem_singleton] at hm
    cases hm

theorem noUAS_upd_end {t : List Ev} (h : noUAS t) {i : Nat} (hs : Ev.settle i ∉ t) :
    noUAS (t ++ [Ev.upd i]) := by
  refine noUAS_append ?_ h ?_
  · show noUAS []
    trivial
  · intro j hj hm
    rw [List.mem_singleton] at hm
    injection hm with hm2
    subst hm2
    exact hs hj

theorem noUAS_replicate (n i : Nat) : noUAS (List.replicate n (Ev.upd i)) := by
  induction n with
  | zero => trivial
  | succ n ih =>
    rw [List.replicate_succ]
    show noUAS (List.replicate n (Ev.upd i))
    exact ih

theorem BndTr_nil (lo hi : Nat) : BndTr lo hi [] :=
  ⟨fun e he => absurd he (List.not_mem_nil e), trivial⟩

theorem BndTr_settle (lo : Nat) : BndTr lo (lo + 1) [Ev.settle lo] := by
  constructor
  · intro e he
    rw [List.mem_singleton] at he
    subst he
    simp [evId]
  · exact ⟨by simp, trivial⟩

theorem BndTr_repl (k lo : Nat) : BndTr lo (lo + 1) (List.replicate k (Ev.upd lo)) := by
  constructor
  · intro e he
    have := List.eq_of_mem_replicate he
    subst this
    simp [evId]
  · exact noUAS_replicate k lo

theorem BndTr_repl_settle (k lo : Nat) :
    BndTr lo (lo + 1) (List.replicate k (Ev.upd lo) ++ [Ev.settle lo]) := by
  constructor
  · intro e he
    rcases List.mem_append.1 he with hm | hm
    · have := List.eq_of_mem_replicate hm
      subst this
      simp [evId]
    · rw [List.mem_singleton] at hm
      subst hm
      simp [evId]
  · exact noUAS_settle_end (noUAS_replicate k lo) lo

theorem BndTr.mono {lo hi : Nat} {tr : List Ev} (h : BndTr lo hi tr) {lo2 hi2 : Nat}
    (hl : lo2 ≤ lo) (hh : hi ≤ hi2) : BndTr lo2 hi2 tr :=
  ⟨fun e he => ⟨le_trans hl (h.1 e he).1, lt_of_lt_of_le (h.1 e he).2 hh⟩, h.2⟩

theorem BndTr_append {lo mid hi : Nat} {t1 t2 : List Ev}
    (h1 : BndTr lo mid t1) (h2 : BndTr mid hi t2) (hm : lo ≤ mid ∧ mid ≤ hi) :
    BndTr lo hi (t1 ++ t2) := by
  constructor
  · intro e he
    rcases List.mem_append.1 he with hx | hx
    · exact ⟨(h1.1 e hx).1, lt_of_lt_of_le (h1.1 e hx).2 hm.2⟩
    · exact ⟨le_trans hm.1 (h2.1 e hx).1, (h2.1 e hx).2⟩
  · refine noUAS_append h2.2 h1.2 ?_
    intro i hs hu
    have b1 := h1.1 _ hs
    have b2 := h2.1 _ hu
    simp only [evId] at b1 b2
    omega

theorem BndTr.ltrO {lo hi : Nat} {tr : List Ev} (h : BndTr lo hi tr) {nid : Nat}
    (hn : nid < lo) : LTrO nid lo hi tr := by
  refine ⟨⟨fun e he => Or.inr (h.1 e he), h.2⟩, ?_⟩
  intro hm
  have := h.1 _ hm
  simp only [evId] at this
  omega

theorem LTr_nil (nid lo hi : Nat) : LTr nid lo hi [] :=
  ⟨fun e he => absurd he (List.not_mem_nil e), trivial⟩

theorem LTrO_nil (nid lo hi : Nat) : LTrO nid lo hi [] :=
  ⟨LTr_nil nid lo hi, by simp⟩

theorem LTr_single_settle (nid lo hi : Nat) : LTr nid lo hi [Ev.settle nid] := by
  refine ⟨?_, ⟨by simp, trivial⟩⟩
  intro e he
  rw [List.mem_singleton] at he
  subst he
  exact Or.inl rfl

theorem LTrO.settle_end {nid lo hi : Nat} {tr : List Ev} (h : LTrO nid lo hi tr) :
    LTr nid lo hi (tr ++ [Ev.settle nid]) := by
  constructor
  · intro e he
    rcases List.mem_append.1 he with hm | hm
    · exact h.1.1 e hm
    · rw [List.mem_singleton] at hm
      subst hm
      exact Or.inl rfl
  · exact noUAS_settle_end h.1.2 nid

theorem LTrO.upd_end {nid lo hi : Nat} {tr : List Ev} (h : LTrO nid lo hi tr) :
    LTrO nid lo hi (tr ++ [Ev.upd nid]) := by
  refine ⟨⟨?_, noUAS_upd_end h.1.2 h.2⟩, ?_⟩
  · intro e he
    rcases List.mem_append.1 he with hm | hm
    · exact h.1.1 e hm
    · rw [List.mem_singleton] at hm
      subst hm
      exact Or.inl rfl
  · intro hm
    rcases List.mem_append.1 hm with hx | hx
    · exact h.2 hx
    · rw [List.mem_singleton] at hx
      cases hx

theorem LTrO.upd_settle_end {nid lo hi : Nat} {tr : List Ev} (h : LTrO nid lo hi tr) :
    LTr nid lo hi (tr ++ [Ev.upd nid, Ev.settle nid]) := by
  have h2 := h.upd_end.settle_end
  rw [List.append_assoc] at h2
  simpa using h2

theorem LTrO_append_LTr {nid lo mid hi : Nat} {t1 t2 : List Ev}
    (h1 : LTrO nid lo mid t1) (h2 : LTr nid mid hi t2)
    (hb : lo ≤ mid ∧ mid ≤ hi) (hn : nid < lo) : LTr nid lo hi (t1 ++ t2) := by
  constructor
  · intro e he
    rcases List.mem_append.1 he with hm | hm
    · rcases h1.1.1 e hm with hx | hx
      · exact Or.inl hx
      · exact Or.inr ⟨hx.1, lt_of_lt_of_le hx.2 hb.2⟩
    · rcases h2.1 e hm with hx | hx
      · exact Or.inl hx
      · exact Or.inr ⟨le_trans hb.1 hx.1, hx.2⟩
  · refine noUAS_append h2.2 h1.1.2 ?_
    intro i hs hu
    rcases h1.1.1 _ hs with hx | hx
    · simp only [evId] at hx
      subst hx
      exact h1.2 hs
    · simp only [evId] at hx
      rcases h2.1 _ hu with hy | hy
      · simp only [evId] at hy
        omega
      · simp only [evId] at hy
        omega

theorem LTrO_append_LTrO {nid lo mid hi : Nat} {t1 t2 : List Ev}
    (h1 : LTrO nid lo mid t1) (h2 : LTrO nid mid hi t2)
    (hb : lo ≤ mid ∧ mid ≤ hi) (hn : nid < lo) : LTrO nid lo hi (t1 ++ t2) := by
  refine ⟨LTrO_append_LTr h1 h2.1 hb hn, ?_⟩
  intro hm
  rcases List.mem_append.1 hm with hx | hx
  · exact h1.2 hx
  · exact h2.2 hx

theorem TrInv_none {tag : PCallT} {ctr : Nat} {p : VR × Nat × List Ev}
    (hc : ctr ≤ p.2.1) (hb : BndTr ctr p.2.1 p.2.2) : TrInv tag ctr p :=
  ⟨hc, fun e he => Or.inr (hb.1 e he), hb.2⟩

theorem TrInv_some {nid : Nat} {tag : PCallT} (ht : tagN tag = some nid) {ctr : Nat}
    {p : VR × Nat × List Ev} (hc : ctr ≤ p.2.1) (hl : LTr nid ctr p.2.1 p.2.2) :
    TrInv tag ctr p := by
  refine ⟨hc, ?_, hl.2⟩
  intro e he
  rcases hl.1 e he with hx | hx
  · exact Or.inl (by rw [ht, hx])
  · exact Or.inr hx

theorem TrInv.bnd {tag : PCallT} {ctr : Nat} {p : VR × Nat × List Ev}
    (h : TrInv tag ctr p) (ht : tagN tag = none) : BndTr ctr p.2.1 p.2.2 := by
  refine ⟨?_, h.2.2⟩
  intro e he
  rcases h.2.1 e he with hx | hx
  · rw [ht] at hx
    cases hx
  · exact hx

theorem TrInv.ltr {tag : PCallT} {ctr : Nat} {p : VR × Nat × List Ev} {nid : Nat}
    (h : TrInv tag ctr p) (ht : tagN tag = some nid) : LTr nid ctr p.2.1 p.2.2 := by
  refine ⟨?_, h.2.2⟩
  intro e he
  rcases h.2.1 e he with hx | hx
  · rw [ht] at hx
    exact Or.inl (Option.some.inj hx).symm
  · exact Or.inr hx

theorem TrInv_wrap {tag tagL : PCallT} {ctr : Nat}
    {p : VR × Nat × List Ev} {nid : Nat} (hL : tagN tagL = some nid) (hn : nid = ctr)
    (h : TrInv tagL (ctr + 1) p) : TrInv tag ctr p := by
  obtain ⟨hc, hev, hu⟩ := h
  refine ⟨by omega, ?_, hu⟩
  intro e he
  rcases hev e he with hx | hx
  · rw [hL] at hx
    have := Option.some.inj hx
    right
    omega
  · right
    omega

theorem parseStringT_inv (ended : Bool) (ctr : Nat) (inp : Input) :
    ctr ≤ (parseStringT ended ctr inp).2.1 ∧
      BndTr ctr (parseStringT ended ctr inp).2.1 (parseStringT ended ctr inp).2.2 := by
  rw [parseStringT]
  cases expectA ended [34] inp with
  | fail e => exact ⟨Nat.le_succ ctr, BndTr_settle ctr⟩
  | pend => exact ⟨Nat.le_succ ctr, BndTr_nil ctr (ctr + 1)⟩
  | ok u r1 =>
    simp only []
    cases peekNonEofA ended 1 r1 with
    | fail e => exact ⟨Nat.le_succ ctr, BndTr_settle ctr⟩
    | pend => exact ⟨Nat.le_succ ctr, BndTr_nil ctr (ctr + 1)⟩
    | ok c r0 =>
      simp only []
      cases strGoT ended .top [] r1 with
      | mk pr k =>
        cases pr with
        | done acc r2 =>
          simp only []
          cases expectA ended [34] r2 with
          | ok u2 r3 => exact ⟨Nat.le_succ ctr, BndTr_repl_settle k ctr⟩
          | fail e => exact ⟨Nat.le_succ ctr, BndTr_repl_settle k ctr⟩
          | pend => exact ⟨Nat.le_succ ctr, BndTr_repl k ctr⟩
        | fail e acc => exact ⟨Nat.le_succ ctr, BndTr_repl_settle k ctr⟩
        | pend acc => exact ⟨Nat.le_succ ctr, BndTr_repl k ctr⟩

theorem parseNumberT_inv (ended : Bool) (ctr : Nat) (inp : Input) :
    ctr ≤ (parseNumberT ended ctr inp).2.1 ∧
      BndTr ctr (parseNumberT ended ctr inp).2.1 (parseNumberT ended ctr inp).2.2 := by
  rw [parseNumberT]
  cases peek1A ended inp with
  | fail e => exact ⟨Nat.le_succ ctr, BndTr_settle ctr⟩
  | pend => exact ⟨Nat.le_succ ctr, BndTr_nil ctr (ctr + 1)⟩
  | ok c r0 =>
    simp only []
    split_ifs
    · cases nextNonEofA ended 1 inp with
      | ok u r =>
        simp only []
        cases numLoopT ended [45] (some 0) r with
        | mk pr k =>
          cases pr with
          | done v rest => exact ⟨Nat.le_succ ctr, BndTr_repl_settle k ctr⟩
          | fail e v => exact ⟨Nat.le_succ ctr, BndTr_repl_settle k ctr⟩
          | pend v => exact ⟨Nat.le_succ ctr, BndTr_repl k ctr⟩
      | fail e => exact ⟨Nat.le_succ ctr, BndTr_settle ctr⟩
      | pend => exact ⟨Nat.le_succ ctr, BndTr_nil ctr (ctr + 1)⟩
    · cases numLoopT ended [] (some 0) inp with
      | mk pr k =>
        cases pr with
        | done v rest => exact ⟨Nat.le_succ ctr, BndTr_repl_settle k ctr⟩
        | fail e v => exact ⟨Nat.le_succ ctr, BndTr_repl_settle k ctr⟩
        | pend v => exact ⟨Nat.le_succ ctr, BndTr_repl k ctr⟩

theorem parseIdentifierT_inv (ended : Bool) (ctr : Nat) (inp : Input) :
    ctr ≤ (parseIdentifierT ended ctr inp).2.1 ∧
      BndTr ctr (parseIdentifierT ended ctr inp).2.1 (parseIdentifierT ended ctr inp).2.2 := by
  rw [parseIdentifierT]
  cases identLoopT ended [] inp with
  | mk pr k =>
    cases pr with
    | done v rest => exact ⟨Nat.le_succ ctr, BndTr_repl_settle k ctr⟩
    | fail e v => exact ⟨Nat.le_succ ctr, BndTr_repl_settle k ctr⟩
    | pend v => exact ⟨Nat.le_succ ctr, BndTr_repl k ctr⟩

theorem parseBooleanT_inv (ended b : Bool) (ctr : Nat) (inp : Input) :
    ctr ≤ (parseBooleanT ended b ctr inp).2.1 ∧
      BndTr ctr (parseBooleanT ended b ctr inp).2.1 (parseBooleanT ended b ctr inp).2.2 := by
  rw [parseBooleanT]
  cases expectA ended (if b then cu "true" else cu "false") inp with
  | ok u rest => exact ⟨Nat.le_succ ctr, BndTr_settle ctr⟩
  | fail e => exact ⟨Nat.le_succ ctr, BndTr_settle ctr⟩
  | pend => exact ⟨Nat.le_succ ctr, BndTr_nil ctr (ctr + 1)⟩

theorem parseNullT_inv (ended : Bool) (ctr : Nat) (inp : Input) :
    ctr ≤ (parseNullT ended ctr inp).2.1 ∧
      BndTr ctr (parseNullT ended ctr inp).2.1 (parseNullT ended ctr inp).2.2 := by
  rw [parseNullT]
  cases expectA ended (cu "null") inp with
  | ok u rest => exact ⟨Nat.le_succ ctr, BndTr_settle ctr⟩
  | fail e => exact ⟨Nat.le_succ ctr, BndTr_settle ctr⟩
  | pend => exact ⟨Nat.le_succ ctr, BndTr_nil ctr (ctr + 1)⟩

theorem BndTr_key_done {lo c2 : Nat} {evs : List Ev} (hc : lo + 1 ≤ c2)
    (h : BndTr (lo + 1) c2 evs) :
    BndTr lo c2 (evs ++ [Ev.upd lo, Ev.settle lo]) := by
  constructor
  · intro e he
    rcases List.mem_append.1 he with hm | hm
    · have := h.1 e hm
      omega
    · simp only [List.mem_cons, List.mem_singleton] at hm
      rcases hm with hm | hm
      · subst hm
        simp only [evId]
        omega
      · rcases hm with hm | hx
        · subst hm
          simp only [evId]
          omega
        · cases hx
  · refine noUAS_append ?_ h.2 ?_
    · simp [noUAS]
    · intro i hs hu
      have hb := h.1 _ hs
      simp only [evId] at hb
      simp only [List.mem_cons, List.mem_singleton] at hu
      rcases hu with hu | hu
      · injection hu with hx
        omega
      · rcases hu with hu | hx
        · exact Ev.noConfusion hu
        · cases hx

theorem BndTr_key_fail {lo c2 : Nat} {evs : List Ev} (hc : lo + 1 ≤ c2)
    (h : BndTr (lo + 1) c2 evs) : BndTr lo c2 (evs ++ [Ev.settle lo]) := by
  constructor
  · intro e he
    rcases List.mem_append.1 he with hm | hm
    · have := h.1 e hm
      omega
    · rw [List.mem_singleton] at hm
      subst hm
      simp only [evId]
      omega
  · exact noUAS_settle_end h.2 lo

theorem parseKeyT_inv (ended : Bool) (ctr : Nat) (inp : Input) :
    ctr ≤ (parseKeyT ended ctr inp).2.1 ∧
      BndTr ctr (parseKeyT ended ctr inp).2.1 (parseKeyT ended ctr inp).2.2 := by
  rw [parseKeyT]
  cases peek1A ended inp with
  | fail e => exact ⟨Nat.le_succ ctr, BndTr_settle ctr⟩
  | pend => exact ⟨Nat.le_succ ctr, BndTr_nil ctr (ctr + 1)⟩
  | ok c r0 =>
    simp only []
    split_ifs with hc
    · have hi2 := parseStringT_inv ended (ctr + 1) inp
      cases hz : parseStringT ended (ctr + 1) inp with
      | mk pr q =>
        rw [hz] at hi2
        cases q with
        | mk c2 evs =>
          have h1 : ctr + 1 ≤ c2 := hi2.1
          have h2 : BndTr (ctr + 1) c2 evs := hi2.2
          cases pr with
          | done k rest =>
            simp only []
            exact ⟨by omega, BndTr_key_done h1 h2⟩
          | fail e v =>
            simp only []
            exact ⟨by omega, BndTr_key_fail h1 h2⟩
          | pend v =>
            simp only []
            exact ⟨by omega, h2.mono (Nat.le_succ ctr) le_rfl⟩
    · have hi2 := parseIdentifierT_inv ended (ctr + 1) inp
      cases hz : parseIdentifierT ended (ctr + 1) inp with
      | mk pr q =>
        rw [hz] at hi2
        cases q with
        | mk c2 evs =>
          have h1 : ctr + 1 ≤ c2 := hi2.1
          have h2 : BndTr (ctr + 1) c2 evs := hi2.2
          cases pr with
          | done k rest =>
            simp only []
            exact ⟨by omega, BndTr_key_done h1 h2⟩
          | fail e v =>
            simp only []
            exact ⟨by omega, BndTr_key_fail h1 h2⟩
          | pend v =>
            simp only []
            exact ⟨by omega, h2.mono (Nat.le_succ ctr) le_rfl⟩

theorem TrInv_objLoop {nid : Nat} {acc : KList} {ctr c2 : Nat} {tr : List Ev} {r : VR}
    (hc : ctr ≤ c2) (hl : LTr nid ctr c2 tr) : TrInv (.objLoop nid acc) ctr (r, c2, tr) :=
  @TrInv_some nid (.objLoop nid acc) rfl ctr (r, c2, tr) hc hl

theorem TrInv_arrLoop {nid : Nat} {acc : PList} {ctr c2 : Nat} {tr : List Ev} {r : VR}
    (hc : ctr ≤ c2) (hl : LTr nid ctr c2 tr) : TrInv (.arrLoop nid acc) ctr (r, c2, tr) :=
  @TrInv_some nid (.arrLoop nid acc) rfl ctr (r, c2, tr) hc hl

theorem TrInv_wrapLoop {tag tagL : PCallT} {ctr : Nat} {p : VR × Nat × List Ev} {nid : Nat}
    (h : TrInv tagL (ctr + 1) p) (hL : tagN tagL = some nid) (hn : nid = ctr) :
    TrInv tag ctr p :=
  TrInv_wrap hL hn h

theorem parseFT_trace_inv :
    ∀ (f : Nat) (ended : Bool) (tag : PCallT) (inp : Input) (ctr : Nat),
      tagLB tag ctr → TrInv tag ctr (parseFT f ended tag inp ctr) := by
  intro f
  induction f with
  | zero =>
    intro ended tag inp ctr _
    rw [parseFT]
    exact TrInv_none le_rfl (BndTr_nil ctr ctr)
  | succ f ih =>
    intro ended tag inp ctr hlb
    cases tag with
    | val skip =>
      rw [parseFT]
      cases skip with
      | true =>
        simp only [if_true]
        cases skipWSA ended inp with
        | fail e => exact TrInv_none le_rfl (BndTr_nil ctr ctr)
        | pend => exact TrInv_none le_rfl (BndTr_nil ctr ctr)
        | ok u r1 =>
          simp only []
          exact ih ended .disp r1 ctr trivial
      | false =>
        simp only [if_false, Bool.false_eq_true]
        exact ih ended .disp inp ctr trivial
    | disp =>
      rw [parseFT]
      cases peek1A ended inp with
      | fail e => exact TrInv_none le_rfl (BndTr_nil ctr ctr)
      | pend => exact TrInv_none le_rfl (BndTr_nil ctr ctr)
      | ok c r0 =>
        simp only []
        split_ifs
        · exact ih ended .obj inp ctr trivial
        · exact ih ended .arr inp ctr trivial
        · have hs := parseStringT_inv ended ctr inp
          exact TrInv_none hs.1 hs.2
        · have hs := parseBooleanT_inv ended true ctr inp
          exact TrInv_none hs.1 hs.2
        · have hs := parseBooleanT_inv ended false ctr inp
          exact TrInv_none hs.1 hs.2
        · have hs := parseNullT_inv ended ctr inp
          exact TrInv_none hs.1 hs.2
        · have hs := parseNumberT_inv ended ctr inp
          exact TrInv_none hs.1 hs.2
        · exact TrInv_none le_rfl (BndTr_nil ctr ctr)
    | obj =>
      rw [parseFT]
      cases expectA ended [123] inp with
      | fail e => exact TrInv_none (Nat.le_succ ctr) (BndTr_settle ctr)
      | pend => exact TrInv_none (Nat.le_succ ctr) (BndTr_nil ctr (ctr + 1))
      | ok u r1 =>
        simp only []
        exact TrInv_wrapLoop
          (ih ended (.objLoop ctr .nil) r1 (ctr + 1) (Nat.lt_succ_self ctr)) rfl rfl
    | arr =>
      rw [parseFT]
      cases expectA ended [91] inp with
      | fail e => exact TrInv_none (Nat.le_succ ctr) (BndTr_settle ctr)
      | pend => exact TrInv_none (Nat.le_succ ctr) (BndTr_nil ctr (ctr + 1))
      | ok u r1 =>
        simp only []
        exact TrInv_wrapLoop
          (ih ended (.arrLoop ctr .nil) r1 (ctr + 1) (Nat.lt_succ_self ctr)) rfl rfl
    | objLoop nid acc =>
      have hn : nid < ctr := hlb
      rw [parseFT]
      cases skipWSA ended inp with
      | fail e => exact TrInv_objLoop le_rfl (LTr_single_settle nid ctr ctr)
      | pend => exact TrInv_objLoop le_rfl (LTr_nil nid ctr ctr)
      | ok u1 r1 =>
      simp only []
      cases peek1A ended r1 with
      | fail e => exact TrInv_objLoop le_rfl (LTr_single_settle nid ctr ctr)
      | pend => exact TrInv_objLoop le_rfl (LTr_nil nid ctr ctr)
      | ok c rp =>
      simp only []
      split_ifs with hc
      · cases expectA ended [125] r1 with
        | ok u r3 => exact TrInv_objLoop le_rfl (LTr_single_settle nid ctr ctr)
        | fail e => exact TrInv_objLoop le_rfl (LTr_single_settle nid ctr ctr)
        | pend => exact TrInv_objLoop le_rfl (LTr_nil nid ctr ctr)
      · have hk := parseKeyT_inv ended ctr r1
        cases hkz : parseKeyT ended ctr r1 with
        | mk kpr kq =>
        rw [hkz] at hk
        cases kq with
        | mk ctr2 ktr =>
        have hk1 : ctr ≤ ctr2 := hk.1
        have hk2 : BndTr ctr ctr2 ktr := hk.2
        cases kpr with
        | fail e v =>
          simp only []
          exact TrInv_objLoop hk1 (hk2.ltrO hn).settle_end
        | pend v =>
          simp only []
          exact TrInv_objLoop hk1 (hk2.ltrO hn).1
        | done k r2b =>
        simp only []
        cases skipWSA ended r2b with
        | fail e => exact TrInv_objLoop hk1 (hk2.ltrO hn).settle_end
        | pend => exact TrInv_objLoop hk1 (hk2.ltrO hn).1
        | ok u2 r3 =>
        simp only []
        cases expectA ended [58] r3 with
        | fail e => exact TrInv_objLoop hk1 (hk2.ltrO hn).settle_end
        | pend => exact TrInv_objLoop hk1 (hk2.ltrO hn).1
        | ok u3 r4 =>
        simp only []
        have hv := ih ended (.val true) r4 ctr2 trivial
        cases hvz : parseFT f ended (.val true) r4 ctr2 with
        | mk vres vq =>
        rw [hvz] at hv
        cases vq with
        | mk ctr3 vtr =>
        have hv1 : ctr2 ≤ ctr3 := hv.1
        have hv2 : BndTr ctr2 ctr3 vtr := hv.bnd rfl
        cases vres with
        | spent =>
          simp only []
          exact TrInv_objLoop (by omega) (LTr_nil nid ctr ctr3)
        | preFail e =>
          simp only []
          exact TrInv_objLoop (by omega)
            ((BndTr_append hk2 hv2 ⟨hk1, hv1⟩).ltrO hn).settle_end
        | prePend =>
          simp only []
          exact TrInv_objLoop (by omega)
            ((BndTr_append hk2 hv2 ⟨hk1, hv1⟩).ltrO hn).1
        | nodeFail e v =>
          simp only []
          exact TrInv_objLoop (by omega)
            ((BndTr_append hk2 hv2 ⟨hk1, hv1⟩).ltrO hn).upd_settle_end
        | nodePending v =>
          simp only []
          exact TrInv_objLoop (by omega)
            ((BndTr_append hk2 hv2 ⟨hk1, hv1⟩).ltrO hn).upd_end.1
        | nodeDone v r5 =>
        simp only []
        have hpre : LTrO nid ctr ctr3 (ktr ++ vtr ++ [Ev.upd nid]) :=
          ((BndTr_append hk2 hv2 ⟨hk1, hv1⟩).ltrO hn).upd_end
        cases skipWSA ended r5 with
        | fail e => exact TrInv_objLoop (by omega) hpre.settle_end
        | pend => exact TrInv_objLoop (by omega) hpre.1
        | ok u4 r6 =>
        simp only []
        cases peek1A ended r6 with
        | fail e => exact TrInv_objLoop (by omega) hpre.settle_end
        | pend => exact TrInv_objLoop (by omega) hpre.1
        | ok c2 rp2 =>
        simp only []
        split_ifs with hc2
        · cases expectA ended [125] r6 with
          | ok u r8 => exact TrInv_objLoop (by omega) hpre.settle_end
          | fail e => exact TrInv_objLoop (by omega) hpre.settle_end
          | pend => exact TrInv_objLoop (by omega) hpre.1
        · cases expectA ended [44] r6 with
          | fail e => exact TrInv_objLoop (by omega) hpre.settle_end
          | pend => exact TrInv_objLoop (by omega) hpre.1
          | ok u5 r8 =>
            simp only []
            have hrec := ih ended (.objLoop nid (jsInsertK acc k v true)) r8 ctr3
              (show nid < ctr3 by omega)
            cases hrz : parseFT f ended (.objLoop nid (jsInsertK acc k v true)) r8 ctr3 with
            | mk rres rq =>
            rw [hrz] at hrec
            cases rq with
            | mk c4 rtr =>
            have hr1 : ctr3 ≤ c4 := hrec.1
            have hr2 : LTr nid ctr3 c4 rtr := hrec.ltr rfl
            simp only []
            exact TrInv_objLoop (by omega) (LTrO_append_LTr hpre hr2 ⟨by omega, hr1⟩ hn)
    | arrLoop nid acc =>
      have hn : nid < ctr := hlb
      rw [parseFT]
      cases skipWSA ended inp with
      | fail e => exact TrInv_arrLoop le_rfl (LTr_single_settle nid ctr ctr)
      | pend => exact TrInv_arrLoop le_rfl (LTr_nil nid ctr ctr)
      | ok u1 r1 =>
      simp only []
      cases peek1A ended r1 with
      | fail e => exact TrInv_arrLoop le_rfl (LTr_single_settle nid ctr ctr)
      | pend => exact TrInv_arrLoop le_rfl (LTr_nil nid ctr ctr)
      | ok c rp =>
      simp only []
      split_ifs with hc
      · cases expectA ended [93] r1 with
        | ok u r3 => exact TrInv_arrLoop le_rfl (LTr_single_settle nid ctr ctr)
        | fail e => exact TrInv_arrLoop le_rfl (LTr_single_settle nid ctr ctr)
        | pend => exact TrInv_arrLoop le_rfl (LTr_nil nid ctr ctr)
      · have hv := ih ended (.val false) r1 ctr trivial
        cases hvz : parseFT f ended (.val false) r1 ctr with
        | mk vres vq =>
        rw [hvz] at hv
        cases vq with
        | mk ctr3 vtr =>
        have hv1 : ctr ≤ ctr3 := hv.1
        have hv2 : BndTr ctr ctr3 vtr := hv.bnd rfl
        cases vres with
        | spent =>
          simp only []
          exact TrInv_arrLoop (by omega) (LTr_nil nid ctr ctr3)
        | preFail e =>
          simp only []
          exact TrInv_arrLoop (by omega) (hv2.ltrO hn).settle_end
        | prePend =>
          simp only []
          exact TrInv_arrLoop (by omega) (hv2.ltrO hn).1
        | nodeFail e v =>
          simp only []
          exact TrInv_arrLoop (by omega) (hv2.ltrO hn).upd_settle_end
        | nodePending v =>
          simp only []
          exact TrInv_arrLoop (by omega) (hv2.ltrO hn).upd_end.1
        | nodeDone v r5 =>
        simp only []
        have hpre : LTrO nid ctr ctr3 (vtr ++ [Ev.upd nid]) := (hv2.ltrO hn).upd_end
        cases skipWSA ended r5 with
        | fail e => exact TrInv_arrLoop (by omega) hpre.settle_end
        | pend => exact TrInv_arrLoop (by omega) hpre.1
        | ok u4 r6 =>
        simp only []
        cases peek1A ended r6 with
        | fail e => exact TrInv_arrLoop (by omega) hpre.settle_end
        | pend => exact TrInv_arrLoop (by omega) hpre.1
        | ok c2 rp2 =>
        simp only []
        split_ifs with hc2
        · cases expectA ended [93] r6 with
          | ok u r8 => exact TrInv_arrLoop (by omega) hpre.settle_end
          | fail e => exact TrInv_arrLoop (by omega) hpre.settle_end
          | pend => exact TrInv_arrLoop (by omega) hpre.1
        · cases expectA ended [44] r6 with
          | fail e => exact TrInv_arrLoop (by omega) hpre.settle_end
          | pend => exact TrInv_arrLoop (by omega) hpre.1
          | ok u5 r8 =>
            simp only []
            have hrec := ih ended (.arrLoop nid (acc.push v true)) r8 ctr3
              (show nid < ctr3 by omega)
            cases hrz : parseFT f ended (.arrLoop nid (acc.push v true)) r8 ctr3 with
            | mk rres rq =>
            rw [hrz] at hrec
            cases rq with
            | mk c4 rtr =>
            have hr1 : ctr3 ≤ c4 := hrec.1
            have hr2 : LTr nid ctr3 c4 rtr := hrec.ltr rfl
            simp only []
            exact TrInv_arrLoop (by omega) (LTrO_append_LTr hpre hr2 ⟨by omega, hr1⟩ hn)

theorem strGoT_fst (ended : Bool) : ∀ (m : SMode) (acc : List Nat) (inp : Input),
    (strGoT ended m acc inp).1 = strGo ended m acc inp
  | .top, acc, [] => rfl
  | .top, acc, c :: rest => by
    rw [strGoT, strGo]
    split_ifs with h1 h2
    · rfl
    · exact strGoT_fst ended .top (acc ++ [c]) rest
    · exact strGoT_fst ended .esc acc rest
  | .esc, acc, [] => rfl
  | .esc, acc, e :: rest2 => by
    rw [strGoT, strGo]
    cases escTable e with
    | some m2 =>
      simp only []
      exact strGoT_fst ended .top (acc ++ [m2]) rest2
    | none =>
      simp only []
      split_ifs with h1 h2
      · exact strGoT_fst ended .hex4 acc rest2
      · exact strGoT_fst ended .hex8 acc rest2
      · rfl
  | .hex4, acc, h1 :: h2 :: h3 :: h4 :: rest3 =>
    strGoT_fst ended .top (acc ++ [fromCharCode (jsParseIntHex [h1, h2, h3, h4])]) rest3
  | .hex4, acc, [] => rfl
  | .hex4, acc, [a] => rfl
  | .hex4, acc, [a, b] => rfl
  | .hex4, acc, [a, b, c] => rfl
  | .hex8, acc, h1 :: h2 :: h3 :: h4 :: h5 :: h6 :: h7 :: h8 :: rest3 =>
    strGoT_fst ended .top
      (acc ++ [fromCharCode (jsParseIntHex [h1, h2, h3, h4, h5, h6, h7, h8])]) rest3
  | .hex8, acc, [] => rfl
  | .hex8, acc, [a] => rfl
  | .hex8, acc, [a, b] => rfl
  | .hex8, acc, [a, b, c] => rfl
  | .hex8, acc, [a, b, c, d] => rfl
  | .hex8, acc, [a, b, c, d, e2] => rfl
  | .hex8, acc, [a, b, c, d, e2, f2] => rfl
  | .hex8, acc, [a, b, c, d, e2, f2, g2] => rfl

theorem numLoopT_fst (ended : Bool) : ∀ (str : List Nat) (cur : Option ℚ) (inp : Input),
    (numLoopT ended str cur inp).1 = numLoop ended str cur inp
  | str, cur, [] => rfl
  | str, cur, c :: rest => by
    rw [numLoopT, numLoop]
    split_ifs with h
    · exact numLoopT_fst ended (str ++ [c]) (jsNumber (str ++ [c])) rest
    · rfl

theorem identLoopT_fst (ended : Bool) : ∀ (acc : List Nat) (inp : Input),
    (identLoopT ended acc inp).1 = identLoop ended acc inp
  | acc, [] => rfl
  | acc, c :: rest => by
    rw [identLoopT, identLoop]
    split_ifs with h
    · exact identLoopT_fst ended (acc ++ [c]) rest
    · rfl

theorem parseStringT_fst (ended : Bool) (ctr : Nat) (inp : Input) :
    (parseStringT ended ctr inp).1 = parseStringA ended inp := by
  rw [parseStringT, parseStringA]
  cases expectA ended [34] inp with
  | fail e => rfl
  | pend => rfl
  | ok u r1 =>
    simp only []
    cases peekNonEofA ended 1 r1 with
    | fail e => rfl
    | pend => rfl
    | ok c r0 =>
      simp only []
      have hf2 : strGo ended .top [] r1 = (strGoT ended .top [] r1).1 :=
        (strGoT_fst ended .top [] r1).symm
      rw [hf2]
      cases strGoT ended .top [] r1 with
      | mk pr k =>
        cases pr with
        | done acc r2 =>
          simp only []
          cases expectA ended [34] r2 with
          | ok u2 r3 => rfl
          | fail e => rfl
          | pend => rfl
        | fail e acc => rfl
        | pend acc => rfl

theorem parseNumberT_fst (ended : Bool) (ctr : Nat) (inp : Input) :
    (parseNumberT ended ctr inp).1 = parseNumberA ended inp := by
  rw [parseNumberT, parseNumberA]
  cases peek1A ended inp with
  | fail e => rfl
  | pend => rfl
  | ok c r0 =>
    simp only []
    split_ifs
    · cases nextNonEofA ended 1 inp with
      | ok u r =>
        simp only []
        have hf2 : numLoop ended [45] (some 0) r = (numLoopT ended [45] (some 0) r).1 :=
          (numLoopT_fst ended [45] (some 0) r).symm
        rw [hf2]
        cases numLoopT ended [45] (some 0) r with
        | mk pr k =>
          cases pr with
          | done v rest => rfl
          | fail e v => rfl
          | pend v => rfl
      | fail e => rfl
      | pend => rfl
    · have hf2 : numLoop ended [] (some 0) inp = (numLoopT ended [] (some 0) inp).1 :=
        (numLoopT_fst ended [] (some 0) inp).symm
      rw [hf2]
      cases numLoopT ended [] (some 0) inp with
      | mk pr k =>
        cases pr with
        | done v rest => rfl
        | fail e v => rfl
        | pend v => rfl

theorem parseIdentifierT_fst (ended : Bool) (ctr : Nat) (inp : Input) :
    (parseIdentifierT ended ctr inp).1 = parseIdentifierA ended inp := by
  rw [parseIdentifierT, parseIdentifierA]
  have hf2 : identLoop ended [] inp = (identLoopT ended [] inp).1 :=
    (identLoopT_fst ended [] inp).symm
  rw [hf2]
  cases identLoopT ended [] inp with
  | mk pr k =>
    cases pr with
    | done v rest => rfl
    | fail e v => rfl
    | pend v => rfl

theorem parseKeyT_fst (ended : Bool) (ctr : Nat) (inp : Input) :
    (parseKeyT ended ctr inp).1 = parseKeyA ended inp := by
  rw [parseKeyT, parseKeyA]
  cases peek1A ended inp with
  | fail e => rfl
  | pend => rfl
  | ok c r0 =>
    simp only []
    split_ifs with hc
    · have hf2 : parseStringA ended inp = (parseStringT ended (ctr + 1) inp).1 :=
        (parseStringT_fst ended (ctr + 1) inp).symm
      rw [hf2]
      cases parseStringT ended (ctr + 1) inp with
      | mk pr q =>
        cases q with
        | mk c2 evs =>
          cases pr with
          | done k rest => rfl
          | fail e v => rfl
          | pend v => rfl
    · have hf2 : parseIdentifierA ended inp = (parseIdentifierT ended (ctr + 1) inp).1 :=
        (parseIdentifierT_fst ended (ctr + 1) inp).symm
      rw [hf2]
      cases parseIdentifierT ended (ctr + 1) inp with
      | mk pr q =>
        cases q with
        | mk c2 evs =>
          cases pr with
          | done k rest => rfl
          | fail e v => rfl
          | pend v => rfl

theorem parseBooleanT_fst (ended b : Bool) (ctr : Nat) (inp : Input) :
    (parseBooleanT ended b ctr inp).1 = parseBooleanA ended b inp := by
  rw [parseBooleanT, parseBooleanA]
  cases expectA ended (if b then cu "true" else cu "false") inp with
  | ok u rest => rfl
  | fail e => rfl
  | pend => rfl

theorem parseNullT_fst (ended : Bool) (ctr : Nat) (inp : Input) :
    (parseNullT ended ctr inp).1 = parseNullA ended inp := by
  rw [parseNullT, parseNullA]
  cases expectA ended (cu "null") inp with
  | ok u rest => rfl
  | fail e => rfl
  | pend => rfl

theorem parseFT_fst :
    ∀ (f : Nat) (ended : Bool) (tag : PCallT) (inp : Input) (ctr : Nat),
      (parseFT f ended tag inp ctr).1 = parseF f ended tag.forget inp := by
  intro f
  induction f with
  | zero => intro ended tag inp ctr; rfl
  | succ f ih =>
    intro ended tag inp ctr
    cases tag with
    | val skip =>
      simp only [PCallT.forget]
      rw [parseFT, parseF]
      cases skip with
      | true =>
        simp only [if_true]
        cases skipWSA ended inp with
        | fail e => rfl
        | pend => rfl
        | ok u r1 =>
          simp only []
          exact ih ended .disp r1 ctr
      | false =>
        simp only [if_false, Bool.false_eq_true]
        exact ih ended .disp inp ctr
    | disp =>
      simp only [PCallT.forget]
      rw [parseFT, parseF]
      cases peek1A ended inp with
      | fail e => rfl
      | pend => rfl
      | ok c r0 =>
        simp only []
        split_ifs
        · exact ih ended .obj inp ctr
        · exact ih ended .arr inp ctr
        · exact congrArg (liftNode PSnap.jstr) (parseStringT_fst ended ctr inp)
        · exact congrArg (liftNode PSnap.jbool) (parseBooleanT_fst ended true ctr inp)
        · exact congrArg (liftNode PSnap.jbool) (parseBooleanT_fst ended false ctr inp)
        · exact congrArg (liftNode (fun _ => PSnap.jnull)) (parseNullT_fst ended ctr inp)
        · exact congrArg (liftNode PSnap.jnum) (parseNumberT_fst ended ctr inp)
        · rfl
    | obj =>
      simp only [PCallT.forget]
      rw [parseFT, parseF]
      cases expectA ended [123] inp with
      | fail e => rfl
      | pend => rfl
      | ok u r1 =>
        simp only []
        exact ih ended (.objLoop ctr .nil) r1 (ctr + 1)
    | arr =>
      simp only [PCallT.forget]
      rw [parseFT, parseF]
      cases expectA ended [91] inp with
      | fail e => rfl
      | pend => rfl
      | ok u r1 =>
        simp only []
        exact ih ended (.arrLoop ctr .nil) r1 (ctr + 1)
    | objLoop nid acc =>
      simp only [PCallT.forget]
      rw [parseFT, parseF]
      cases skipWSA ended inp with
      | fail e => rfl
      | pend => rfl
      | ok u1 r1 =>
      simp only []
      cases peek1A ended r1 with
      | fail e => rfl
      | pend => rfl
      | ok c rp =>
      simp only []
      split_ifs with hc
      · cases expectA ended [125] r1 with
        | ok u r3 => rfl
        | fail e => rfl
        | pend => rfl
      · have hf2 : parseKeyA ended r1 = (parseKeyT ended ctr r1).1 :=
          (parseKeyT_fst ended ctr r1).symm
        rw [hf2]
        cases parseKeyT ended ctr r1 with
        | mk kpr kq =>
        cases kq with
        | mk ctr2 ktr =>
        cases kpr with
        | fail e v => rfl
        | pend v => rfl
        | done k r2b =>
        simp only []
        cases skipWSA ended r2b with
        | fail e => rfl
        | pend => rfl
        | ok u2 r3 =>
        simp only []
        cases expectA ended [58] r3 with
        | fail e => rfl
        | pend => rfl
        | ok u3 r4 =>
        simp only []
        have hf3 : parseF f ended (.val true) r4 = (parseFT f ended (.val true) r4 ctr2).1 :=
          (ih ended (.val true) r4 ctr2).symm
        rw [hf3]
        cases parseFT f ended (.val true) r4 ctr2 with
        | mk vres vq =>
        cases vq with
        | mk ctr3 vtr =>
        cases vres with
        | spent => rfl
        | preFail e => rfl
        | prePend => rfl
        | nodeFail e v => rfl
        | nodePending v => rfl
        | nodeDone v r5 =>
        simp only []
        cases skipWSA ended r5 with
        | fail e => rfl
        | pend => rfl
        | ok u4 r6 =>
        simp only []
        cases peek1A ended r6 with
        | fail e => rfl
        | pend => rfl
        | ok c2 rp2 =>
        simp only []
        split_ifs with hc2
        · cases expectA ended [125] r6 with
          | ok u r8 => rfl
          | fail e => rfl
          | pend => rfl
        · cases expectA ended [44] r6 with
          | fail e => rfl
          | pend => rfl
          | ok u5 r8 =>
            simp only []
            exact ih ended (.objLoop nid (jsInsertK acc k v true)) r8 ctr3
    | arrLoop nid acc =>
      simp only [PCallT.forget]
      rw [parseFT, parseF]
      cases skipWSA ended inp with
      | fail e => rfl
      | pend => rfl
      | ok u1 r1 =>
      simp only []
      cases peek1A ended r1 with
      | fail e => rfl
      | pend => rfl
      | ok c rp =>
      simp only []
      split_ifs with hc
      · cases expectA ended [93] r1 with
        | ok u r3 => rfl
        | fail e => rfl
        | pend => rfl
      · have hf3 : parseF f ended (.val false) r1 = (parseFT f ended (.val false) r1 ctr).1 :=
          (ih ended (.val false) r1 ctr).symm
        rw [hf3]
        cases parseFT f ended (.val false) r1 ctr with
        | mk vres vq =>
        cases vq with
        | mk ctr3 vtr =>
        cases vres with
        | spent => rfl
        | preFail e => rfl
        | prePend => rfl
        | nodeFail e v => rfl
        | nodePending v => rfl
        | nodeDone v r5 =>
        simp only []
        cases skipWSA ended r5 with
        | fail e => rfl
        | pend => rfl
        | ok u4 r6 =>
        simp only []
        cases peek1A ended r6 with
        | fail e => rfl
        | pend => rfl
        | ok c2 rp2 =>
        simp only []
        split_ifs with hc2
        · cases expectA ended [93] r6 with
          | ok u r8 => rfl
          | fail e => rfl
          | pend => rfl
        · cases expectA ended [44] r6 with
          | fail e => rfl
          | pend => rfl
          | ok u5 r8 =>
            simp only []
            exact ih ended (.arrLoop nid (acc.push v true)) r8 ctr3


/-- C8.  Once a node's completion future has resolved or rejected, its
snapshot is never mutated again by any later step of the parse: in the
instrumented run, which allocates node ids in `#wrapResult` creation
order and emits one `upd` per `update` call (replace updates in the
scalar builders, deep attach updates in the object and array builders)
and one `settle` when a builder body's promise resolves or rejects, the
engine's event trace satisfies `noUAS` for every input and either value
of the end-of-stream flag.  The instrumented grammar returns the same
result as the plain one, and on `[1,2]` the trace is the concrete
update/settle sequence of the array node `0` and the two number nodes
`1`, `2`, each settling after its updates and never updated again. -/
theorem C8_snapshot_frozen :
    (∀ (inp : Input) (ended : Bool), noUAS (engineTrace inp ended))
  ∧ (∀ (f : Nat) (ended : Bool) (tag : PCallT) (inp : Input) (ctr : Nat),
      (parseFT f ended tag inp ctr).1 = parseF f ended tag.forget inp)
  ∧ engineTrace (cu "[1,2]") true =
      [.upd 1, .settle 1, .upd 0, .upd 2, .settle 2, .upd 0, .settle 0] :=
  ⟨fun inp ended => (parseFT_trace_inv (canonFuel inp) ended (.val true) inp 0 trivial).2.2,
   parseFT_fst,
   by with_unfolding_all rfl⟩

end JsonStream
